import Mathlib

/-!
A shallow embedding of the Sia consensus engine (package `consensus` and the
catch-up code of package `sia`), together with proofs about transaction
validation, transaction application/inversion, header validation, block
acceptance and the catch-up protocol.

Modelling conventions:

* Go maps become functions `Nat → Option β`; a read of a missing key yields
  the zero value of the value type, written explicitly at each read site, and
  a dereference of a `nil` pointer obtained from a map read is represented by
  a distinguished "panicked" result.
* The fixed-width integer types of the source (`uint64` heights, `int64`
  timestamps) become `Nat` and `Int`; wraparound is written out explicitly at
  the places where the source relies on it (the catch-up height arithmetic).
* Identifier types (`OutputID`, `ContractID`, `BlockID`, `CoinAddress`,
  `crypto.PublicKey`, hashes) are opaque byte strings in the source and are
  modelled as `Nat`.
* Code of the repository that lives in files absent from the source tree
  (the type declarations, the crypto/hash/id-derivation helpers, the contract
  subroutines, the transaction-pool bookkeeping, fork choice) is either taken
  as an abstract environment parameter or modelled from the specification;
  every such definition carries a doc comment saying so.
-/

namespace Sia

/-- Modelled from the spec: `Currency` is a primitive coin amount (its width
is declared in a file absent from the source tree); modelled as `Nat`. -/
abbrev Currency := Nat

/-- Modelled from the spec: `OutputID` is a 32-byte identifier; modelled as `Nat`. -/
abbrev OutputID := Nat

/-- Modelled from the spec: `ContractID` is a 32-byte identifier; modelled as `Nat`. -/
abbrev ContractID := Nat

/-- Modelled from the spec: `CoinAddress` is a 32-byte hash; modelled as `Nat`. -/
abbrev CoinAddress := Nat

/-- Modelled from the spec: `BlockHeight` is an unsigned integer; modelled as
`Nat`, with the source's uint64 wraparound written explicitly where used. -/
abbrev BlockHeight := Nat

/-- Modelled from the spec: a timestamp in seconds since the epoch.  The
source computes `skew := b.Timestamp - now` and compares it with
`FutureThreshold`, which per the spec rule "timestamp ≤ now + FutureThreshold"
is signed arithmetic; modelled as `Int`. -/
abbrev Timestamp := Int

/-- Modelled from the spec: a public key of the signature scheme; opaque, so `Nat`. -/
abbrev PublicKey := Nat

/-- Modelled from the spec: a block identifier (hash of the header); `Nat`. -/
abbrev BlockID := Nat

/-- Update of a Go map modelled as a function: write value `v` (or delete,
with `v = none`) at key `k`. -/
def mupd {β : Type} (m : Nat → Option β) (k : Nat) (v : Option β) : Nat → Option β :=
  fun q => if q = k then v else m q

/-- `SpendConditions` (from the data model of the spec; the declaring file is
absent from the source tree): timelock, required-signature count, key list. -/
structure SpendConditions where
  TimeLock : Nat
  NumSignatures : Nat
  PublicKeys : List Nat
deriving DecidableEq

/-- A transaction input: the output it spends and its spend conditions. -/
structure Input where
  OutputID : Nat
  SpendConditions : SpendConditions
deriving DecidableEq

/-- A financial output: a value and the hash the spender's conditions must match. -/
structure Output where
  Value : Nat
  SpendHash : Nat
deriving DecidableEq

/-- The zero value of `Output`, produced by a Go map read at a missing key. -/
def zeroOutput : Output := { Value := 0, SpendHash := 0 }

/-- A transaction signature: the input it covers, an index into that input's
key list, a timelock, and the raw signature bytes (opaque, `Nat`). -/
structure TxSignature where
  InputID : Nat
  PublicKeyIndex : Nat
  TimeLock : Nat
  Signature : Nat
deriving DecidableEq

/-- A file contract, fields per the data model of the spec (the declaring
file is absent from the source tree).  `validTransaction` reads only
`ContractFund`. -/
structure FileContract where
  ContractFund : Nat
  Start : Nat
  End : Nat
  ChallengeWindow : Nat
  FileMerkleRoot : Nat
  ValidProofAddress : Nat
  MissedProofAddress : Nat
  Tolerance : Nat
deriving DecidableEq

/-- A storage proof: the contract it proves and its Merkle branch (opaque). -/
structure StorageProof where
  ContractID : Nat
  Branch : Nat
deriving DecidableEq

/-- A transaction, field for field after the data model of the spec. -/
structure Transaction where
  Inputs : List Input
  Outputs : List Output
  MinerFees : List Nat
  FileContracts : List FileContract
  StorageProofs : List StorageProof
  Signatures : List TxSignature
deriving DecidableEq

/-- A live contract (`OpenContract` of the source). -/
structure OpenContract where
  FileContract : FileContract
  ContractID : Nat
  FundsRemaining : Nat
  Failures : Nat
  WindowSatisfied : Bool
deriving DecidableEq

/-- The errors `validTransaction`, `AcceptTransaction` and `validInput` can
produce; the source uses error strings, modelled as constructors. -/
inductive TxErr where
  | nonexistingOutput
  | spendHashMismatch
  | inputTimelock
  | outputSpentTwice
  | invalidContract
  | invalidProof
  | proofWindowSatisfied
  | conservationDeficit
  | frivolousSignature
  | publicKeyUsedTwice
  | signatureTimelock
  | invalidSignature
  | keyIndexRange
  | missingSignatures
  | conflictingTransaction
deriving DecidableEq

/-- Result of running a validation routine: success, a returned error, or a
Go runtime panic (nil-map-entry dereference, slice index out of range). -/
inductive TxResult where
  | ok
  | failed (e : TxErr)
  | panicked
deriving DecidableEq

/-- Result of a phase of `validTransaction` that also carries a value. -/
inductive VRes (α : Type) where
  | ok (a : α)
  | failed (e : TxErr)
  | panicked
deriving DecidableEq

/-- `InputSignatures` of the source: per-input signature bookkeeping.  The
source never initialises `UsedKeys` (a `nil` map, reads yield "not present")
and, notably, never inserts into it; the embedding is faithful to that. -/
structure InputSignatures where
  RemainingSignatures : Nat
  PossibleKeys : List Nat
  UsedKeys : List Nat
  Index : Nat
deriving DecidableEq

/-- The consensus-state fields read and written by transaction validation and
application: the current height (`s.height()`, i.e. the height of the node of
`currentBlockID`), the unspent and spent output maps and the open contracts. -/
structure CState where
  height : Nat
  unspentOutputs : Nat → Option Output
  spentOutputs : Nat → Option Output
  openContracts : Nat → Option OpenContract

/-- The mempool, per the data model: outputs spent by pooled transactions,
contracts whose proofs are pooled, and the transaction list keyed by each
transaction's first input. -/
structure Pool where
  poolOutputs : Nat → Option Transaction
  poolProofs : Nat → Option Transaction
  transactionList : Nat → Option Transaction

/-- The abstract environment standing for repository code that is absent from
the source tree: `SpendConditions.CoinAddress()` (a hash), `crypto.VerifyBytes`,
`Transaction.SigHash`, the id-derivation functions `Transaction.OutputID`,
`Transaction.FileContractID` and the storage-proof payout output id, the
storage-proof payout amount, `State.validContract`, and the height-window and
Merkle checks of `State.validProof`. -/
structure Env where
  coinAddress : SpendConditions → Nat
  verifyBytes : Nat → PublicKey → Nat → Bool
  sigHash : Transaction → Nat → Nat
  outputID : Transaction → Nat → Nat
  fileContractID : Transaction → Nat → Nat
  spOutputID : StorageProof → Nat
  proofPayout : OpenContract → Nat
  validContract : CState → FileContract → Bool
  validProofWindow : CState → StorageProof → Bool

/-- `State.validInput`: the input must spend an existing unspent output, its
spend conditions must hash to the output's `SpendHash`, and its timelock must
have expired. -/
def validInput (env : Env) (s : CState) (inp : Input) : Option TxErr :=
  match s.unspentOutputs inp.OutputID with
  | none => some .nonexistingOutput
  | some out =>
    if env.coinAddress inp.SpendConditions ≠ out.SpendHash then some .spendHashMismatch
    else if s.height < inp.SpendConditions.TimeLock then some .inputTimelock
    else none

/-- First loop of `validTransaction`: validate each input, reject an output
spent twice, build the `InputSignatures` entry, and accumulate the input sum.
The signature map is an association list keyed by `OutputID`. -/
def checkInputs (env : Env) (s : CState) :
    List Input → Nat → Nat → List (Nat × InputSignatures) →
    VRes (Nat × List (Nat × InputSignatures)) :=
  fun l i sum m =>
    match l with
    | [] => .ok (sum, m)
    | inp :: rest =>
      match validInput env s inp with
      | some e => .failed e
      | none =>
        if (m.lookup inp.OutputID).isSome then .failed .outputSpentTwice
        else
          let entry : InputSignatures :=
            { RemainingSignatures := inp.SpendConditions.NumSignatures
              PossibleKeys := inp.SpendConditions.PublicKeys
              UsedKeys := []
              Index := i }
          checkInputs env s rest (i + 1)
            (sum + ((s.unspentOutputs inp.OutputID).getD zeroOutput).Value)
            (m ++ [(inp.OutputID, entry)])

/-- Contract loop of `validTransaction`: each contract must pass
`s.validContract` (code absent from the source tree, abstracted into the
environment) and its fund is added to the output sum. -/
def checkContracts (env : Env) (s : CState) : List FileContract → Nat → VRes Nat :=
  fun l sum =>
    match l with
    | [] => .ok sum
    | fc :: rest =>
      if env.validContract s fc then checkContracts env s rest (sum + fc.ContractFund)
      else .failed .invalidContract

/-- Modelled from the spec: `State.validProof` (its file is absent from the
source tree).  Per the spec a storage proof "must reference an open contract",
its height must fall inside the contract's current challenge window and its
Merkle branch must verify (both abstracted into `env.validProofWindow`); the
open contract's flag that "a proof has arrived in the current window"
(`WindowSatisfied`) must still be unset for a new proof of that window to be
acceptable. -/
def validProof (env : Env) (s : CState) (sp : StorageProof) : Option TxErr :=
  match s.openContracts sp.ContractID with
  | none => some .invalidProof
  | some oc =>
    if oc.WindowSatisfied then some .proofWindowSatisfied
    else if env.validProofWindow s sp then none
    else some .invalidProof

/-- Proof loop of `validTransaction`. -/
def checkProofs (env : Env) (s : CState) : List StorageProof → Option TxErr :=
  fun l =>
    match l with
    | [] => none
    | sp :: rest =>
      match validProof env s sp with
      | some e => some e
      | none => checkProofs env s rest

/-- Replace the entry at key `k` of an association list (first occurrence). -/
def updAssoc (m : List (Nat × InputSignatures)) (k : Nat)
    (v : InputSignatures) : List (Nat × InputSignatures) :=
  match m with
  | [] => []
  | (q, e) :: rest => if q = k then (q, v) :: rest else (q, e) :: updAssoc rest k v

/-- Signature loop of `validTransaction`.  A signature whose `InputID` is not
a key of the map makes the source dereference the `nil` pointer
`inputSignaturesMap[sig.InputID]`, a runtime panic; likewise
`PossibleKeys[sig.PublicKeyIndex]` panics when the index is out of range.
The source checks `UsedKeys` but never inserts into it, and that is mirrored
here. -/
def checkSignatures (env : Env) (s : CState) (t : Transaction) :
    List TxSignature → Nat → List (Nat × InputSignatures) →
    VRes (List (Nat × InputSignatures)) :=
  fun l i m =>
    match l with
    | [] => .ok m
    | sig :: rest =>
      match m.lookup sig.InputID with
      | none => .panicked
      | some entry =>
        if entry.RemainingSignatures = 0 then .failed .frivolousSignature
        else if sig.PublicKeyIndex ∈ entry.UsedKeys then .failed .publicKeyUsedTwice
        else if s.height < sig.TimeLock then .failed .signatureTimelock
        else
          match entry.PossibleKeys.get? sig.PublicKeyIndex with
          | none => .panicked
          | some key =>
            if ¬ env.verifyBytes (env.sigHash t i) key sig.Signature then
              .failed .invalidSignature
            else
              checkSignatures env s t rest (i + 1)
                (updAssoc m sig.InputID
                  { entry with RemainingSignatures := entry.RemainingSignatures - 1 })

/-- Final loop of `validTransaction`: every input must be fully signed. -/
def checkRemaining (m : List (Nat × InputSignatures)) : Option TxErr :=
  match m with
  | [] => none
  | (_, e) :: rest =>
    if e.RemainingSignatures ≠ 0 then some .missingSignatures else checkRemaining rest

/-- `State.validTransaction`, phase for phase in source order: inputs (sum and
signature map), miner fees and output values, contracts, storage proofs, the
conservation check (the source rejects only `inputSum < outputSum`; a surplus
passes), signatures, and the fully-signed check. -/
def validTransaction (env : Env) (s : CState) (t : Transaction) : TxResult :=
  match checkInputs env s t.Inputs 0 0 [] with
  | .failed e => .failed e
  | .panicked => .panicked
  | .ok (inputSum, sigMap) =>
    let feeSum := t.MinerFees.foldl (fun a f => a + f) 0
    let outSum := t.Outputs.foldl (fun a o => a + o.Value) 0
    match checkContracts env s t.FileContracts (feeSum + outSum) with
    | .failed e => .failed e
    | .panicked => .panicked
    | .ok outputSum =>
      match checkProofs env s t.StorageProofs with
      | some e => .failed e
      | none =>
        if inputSum < outputSum then .failed .conservationDeficit
        else
          match checkSignatures env s t t.Signatures 0 sigMap with
          | .failed e => .failed e
          | .panicked => .panicked
          | .ok finalMap =>
            match checkRemaining finalMap with
            | some e => .failed e
            | none => .ok

/-- `State.ValidTransaction`, the exported wrapper (the mutex is irrelevant to
a sequential model). -/
def ValidTransaction (env : Env) (s : CState) (t : Transaction) : TxResult :=
  validTransaction env s t

/-- Modelled from the spec: `State.transactionPoolConflict` (its file is
absent from the source tree): a transaction conflicts with the pool when one
of its inputs appears in `poolOutputs` or a contract referenced by one of its
storage proofs appears in `poolProofs`. -/
def transactionPoolConflict (p : Pool) (t : Transaction) : Bool :=
  t.Inputs.any (fun inp => (p.poolOutputs inp.OutputID).isSome) ||
    t.StorageProofs.any (fun sp => (p.poolProofs sp.ContractID).isSome)

/-- Modelled from the spec: `State.addTransactionToPool` (its file is absent
from the source tree): index each input into `poolOutputs`, each proof's
contract into `poolProofs`, and the transaction, keyed by its first input's
id, into the transaction list. -/
def addTransactionToPool (p : Pool) (t : Transaction) : Pool :=
  let p1 : Pool :=
    { p with poolOutputs :=
        t.Inputs.foldl (fun m inp => mupd m inp.OutputID (some t)) p.poolOutputs }
  let p2 : Pool :=
    { p1 with poolProofs :=
        t.StorageProofs.foldl (fun m sp => mupd m sp.ContractID (some t)) p1.poolProofs }
  match t.Inputs with
  | [] => p2
  | inp :: _ => { p2 with transactionList := mupd p2.transactionList inp.OutputID (some t) }

/-- `State.AcceptTransaction`: reject a pool conflict, then validate against
the consensus state, then add to the pool.  The consensus state is returned
unchanged on every path because the source never writes to it here; a panic
in `validTransaction` propagates. -/
def AcceptTransaction (env : Env) (s : CState) (p : Pool) (t : Transaction) :
    TxResult × CState × Pool :=
  if transactionPoolConflict p t then (.failed .conflictingTransaction, s, p)
  else
    match validTransaction env s t with
    | .failed e => (.failed e, s, p)
    | .panicked => (.panicked, s, p)
    | .ok => (.ok, s, addTransactionToPool p t)

/-- An output diff, as in the source: whether the output is being created or
removed, its id, and the output itself. -/
structure OutputDiff where
  New : Bool
  ID : Nat
  Output : Output
deriving DecidableEq

/-- Flip the `New` flag of a diff. -/
def flipDiff (d : OutputDiff) : OutputDiff := { d with New := !d.New }

/-- Pair a list with indices counting up from `i`, as a Go `range` loop does. -/
def idxFrom {α : Type} : Nat → List α → List (Nat × α)
  | _, [] => []
  | i, a :: as => (i, a) :: idxFrom (i + 1) as

/-- Input loop of `applyTransaction`: move each input's output from
`unspentOutputs` to `spentOutputs` and emit a `New := false` diff.  The
`DEBUG` sanity check of the source (this is the `!release` build) panics when
the output is missing; that path is `none`. -/
def applyInputs (s : CState) : List Input → Option (CState × List OutputDiff)
  | [] => some (s, [])
  | inp :: rest =>
    match s.unspentOutputs inp.OutputID with
    | none => none
    | some out =>
      let s1 : CState :=
        { s with
          spentOutputs := mupd s.spentOutputs inp.OutputID (some out)
          unspentOutputs := mupd s.unspentOutputs inp.OutputID none }
      match applyInputs s1 rest with
      | none => none
      | some (s2, ds) =>
        some (s2, { New := false, ID := inp.OutputID, Output := out } :: ds)

/-- Output loop of `applyTransaction`, over the pairs
`(t.OutputID(i), t.Outputs[i])`: insert each output and emit a `New := true`
diff. -/
def applyOutputs (s : CState) : List (Nat × Output) → CState × List OutputDiff
  | [] => (s, [])
  | (oid, out) :: rest =>
    let s1 : CState := { s with unspentOutputs := mupd s.unspentOutputs oid (some out) }
    let r := applyOutputs s1 rest
    (r.1, { New := true, ID := oid, Output := out } :: r.2)

/-- The output created by a storage proof.  Modelled from the spec:
`State.applyStorageProof` (its file is absent from the source tree) credits
the "successful-payout output" of the proof's open contract; the payout
amount is not specified and is abstracted into `env.proofPayout`. -/
def spOutput (env : Env) (oc : OpenContract) : Output :=
  { Value := env.proofPayout oc, SpendHash := oc.FileContract.ValidProofAddress }

/-- Modelled from the spec: `State.applyStorageProof` (its file is absent
from the source tree): credit the payout output at the proof's derived output
id, mark the contract's current window satisfied, and emit a `New := true`
diff.  A missing open contract would be a nil dereference in the source
(`none` here); the caller has validated the proof. -/
def applyStorageProof (env : Env) (s : CState) (sp : StorageProof) :
    Option (CState × OutputDiff) :=
  match s.openContracts sp.ContractID with
  | none => none
  | some oc =>
    let out := spOutput env oc
    let s1 : CState :=
      { s with
        unspentOutputs := mupd s.unspentOutputs (env.spOutputID sp) (some out)
        openContracts :=
          mupd s.openContracts sp.ContractID (some { oc with WindowSatisfied := true }) }
    some (s1, { New := true, ID := env.spOutputID sp, Output := out })

/-- Storage-proof loop of `applyTransaction`. -/
def applyProofs (env : Env) (s : CState) :
    List StorageProof → Option (CState × List OutputDiff)
  | [] => some (s, [])
  | sp :: rest =>
    match applyStorageProof env s sp with
    | none => none
    | some (s1, d) =>
      match applyProofs env s1 rest with
      | none => none
      | some (s2, ds) => some (s2, d :: ds)

/-- Modelled from the spec: `State.applyContract` (its file is absent from the
source tree) registers a new open contract; no output diff is produced, which
the source notes explicitly at the call site. -/
def applyContract (s : CState) (fc : FileContract) (cid : Nat) : CState :=
  { s with
    openContracts :=
      mupd s.openContracts cid
        (some { FileContract := fc, ContractID := cid,
                FundsRemaining := fc.ContractFund, Failures := 0,
                WindowSatisfied := false }) }

/-- Contract loop of `applyTransaction`, over `(t.FileContractID(i), contract)` pairs. -/
def applyContracts (s : CState) : List (Nat × FileContract) → CState
  | [] => s
  | (cid, fc) :: rest => applyContracts (applyContract s fc cid) rest

/-- The `(t.OutputID(i), output)` pairs of a transaction. -/
def outputPairs (env : Env) (t : Transaction) : List (Nat × Output) :=
  (idxFrom 0 t.Outputs).map (fun p => (env.outputID t p.1, p.2))

/-- The `(t.FileContractID(i), contract)` pairs of a transaction. -/
def contractPairs (env : Env) (t : Transaction) : List (Nat × FileContract) :=
  (idxFrom 0 t.FileContracts).map (fun p => (env.fileContractID t p.1, p.2))

/-- `State.applyTransaction`, loop for loop in source order: inputs, outputs,
storage proofs, contracts.  The call to `removeTransactionConflictsFromPool`
at the top of the source routine touches only the mempool maps (its file is
absent from the source tree); the mempool is modelled separately
(`AcceptTransaction`) and the three consensus maps this function is about are
untouched by it. -/
def applyTransaction (env : Env) (s : CState) (t : Transaction) :
    Option (CState × List OutputDiff) :=
  match applyInputs s t.Inputs with
  | none => none
  | some (s1, dsI) =>
    let r2 := applyOutputs s1 (outputPairs env t)
    match applyProofs env r2.1 t.StorageProofs with
    | none => none
    | some (s3, dsP) =>
      some (applyContracts s3 (contractPairs env t), dsI ++ r2.2 ++ dsP)

/-- Contract loop of `invertTransaction`: delete each contract created by the
transaction. -/
def invertContracts (s : CState) : List Nat → CState
  | [] => s
  | cid :: rest =>
    invertContracts { s with openContracts := mupd s.openContracts cid none } rest

/-- Modelled from the spec and the call site in the source:
`State.invertStorageProof` (its file is absent from the source tree) deletes
the output the proof created (the source comment: "Delete all outputs created
by storage proofs"), clears the contract's window flag, and returns the
`New := false` diff.  A missing open contract would be a nil dereference
(`none`); a missing output reads as the zero value, as a Go map read does. -/
def invertStorageProof (env : Env) (s : CState) (sp : StorageProof) :
    Option (CState × OutputDiff) :=
  match s.openContracts sp.ContractID with
  | none => none
  | some oc =>
    let out := (s.unspentOutputs (env.spOutputID sp)).getD zeroOutput
    let s1 : CState :=
      { s with
        unspentOutputs := mupd s.unspentOutputs (env.spOutputID sp) none
        openContracts :=
          mupd s.openContracts sp.ContractID (some { oc with WindowSatisfied := false }) }
    some (s1, { New := false, ID := env.spOutputID sp, Output := out })

/-- Storage-proof loop of `invertTransaction`. -/
def invertProofs (env : Env) (s : CState) :
    List StorageProof → Option (CState × List OutputDiff)
  | [] => some (s, [])
  | sp :: rest =>
    match invertStorageProof env s sp with
    | none => none
    | some (s1, d) =>
      match invertProofs env s1 rest with
      | none => none
      | some (s2, ds) => some (s2, d :: ds)

/-- Output loop of `invertTransaction`: look up each of the transaction's
created outputs (`s.output` panics — `none` — when it is missing), emit a
`New := false` diff, and delete it. -/
def invertOutputs (s : CState) : List Nat → Option (CState × List OutputDiff)
  | [] => some (s, [])
  | oid :: rest =>
    match s.unspentOutputs oid with
    | none => none
    | some out =>
      match invertOutputs { s with unspentOutputs := mupd s.unspentOutputs oid none } rest with
      | none => none
      | some (s2, ds) =>
        some (s2, { New := false, ID := oid, Output := out } :: ds)

/-- Input loop of `invertTransaction`: restore each spent output to
`unspentOutputs` (a missing `spentOutputs` entry reads as the zero value, as
in Go), emit a `New := true` diff, and delete the `spentOutputs` entry. -/
def invertInputs (s : CState) : List Input → CState × List OutputDiff
  | [] => (s, [])
  | inp :: rest =>
    let out := (s.spentOutputs inp.OutputID).getD zeroOutput
    let s1 : CState :=
      { s with
        unspentOutputs := mupd s.unspentOutputs inp.OutputID (some out)
        spentOutputs := mupd s.spentOutputs inp.OutputID none }
    let r := invertInputs s1 rest
    (r.1, { New := true, ID := inp.OutputID, Output := out } :: r.2)

/-- `State.invertTransaction`, loop for loop in source order: delete the
contracts, invert the storage proofs, delete the created outputs, restore the
inputs.  The trailing `addTransactionToPool` call touches only the mempool
maps and is modelled separately. -/
def invertTransaction (env : Env) (s : CState) (t : Transaction) :
    Option (CState × List OutputDiff) :=
  let s1 := invertContracts s ((contractPairs env t).map Prod.fst)
  match invertProofs env s1 t.StorageProofs with
  | none => none
  | some (s2, dsP) =>
    match invertOutputs s2 ((outputPairs env t).map Prod.fst) with
    | none => none
    | some (s3, dsO) =>
      let r := invertInputs s3 t.Inputs
      some (r.1, dsP ++ dsO ++ r.2)

/-- `MedianTimestampWindow` of the source constants. -/
def MedianTimestampWindow : Nat := 11

/-- `FutureThreshold` of the source constants: 3 hours, in seconds. -/
def FutureThreshold : Int := 3 * 60 * 60

/-- `BlockSizeLimit` of the source constants. -/
def BlockSizeLimit : Nat := 1024 * 1024 * 1024

/-- `MaxCatchUpBlocks` of the catch-up code. -/
def MaxCatchUpBlocks : Nat := 100

/-- A block, fields per the data model of the spec (the declaring file is
absent from the source tree); the id is the hash of the header, abstracted
into the block environment. -/
structure Block where
  ParentBlockID : Nat
  Nonce : Nat
  Timestamp : Int
  MinerAddress : Nat
  MerkleRoot : Nat
  Transactions : List Transaction
deriving DecidableEq

/-- The zero value of `Block`, produced by ignoring the error of a failed
`BlockAtHeight` lookup as `CatchUp` does for the genesis block. -/
def zeroBlock : Block :=
  { ParentBlockID := 0, Nonce := 0, Timestamp := 0, MinerAddress := 0,
    MerkleRoot := 0, Transactions := [] }

/-- A `BlockNode` of the block tree.  `Target` and `Depth` are 32-byte
unsigned integers, modelled as `Nat`; `Children` holds the ids of the child
blocks (the source holds pointers). -/
structure BNode where
  Block : Block
  Height : Nat
  RecentTimestamps : List Int
  Target : Nat
  Depth : Nat
  Children : List Nat
deriving DecidableEq

/-- The zero value of `BNode`. -/
def zeroBNode : BNode :=
  { Block := zeroBlock, Height := 0, RecentTimestamps := [], Target := 0,
    Depth := 0, Children := [] }

/-- The block-tree fields of `State` used by block acceptance and catch-up:
`badBlocks` (a set), `blockMap`, `missingParents` (a map of maps),
`currentBlockID` and `currentPath`. -/
structure NState where
  badBlocks : Nat → Bool
  blockMap : Nat → Option BNode
  missingParents : Nat → Option (Nat → Option Block)
  currentBlockID : Nat
  currentPath : Nat → Option BlockID

/-- The abstract environment for block-level code absent from the source
tree: `Block.ID()` and `Block.CheckTarget` (hashing), `encoding.Marshal`
length, `Block.TransactionMerkleRoot`, `State.childTarget` and
`BlockNode.childDepth` (target arithmetic), and the fork-choice tail of
`AcceptBlock` (`heavierFork`/`forkBlockchain`), which no claim reaches. -/
structure BEnv where
  blockID : Block → Nat
  checkTarget : Block → Nat → Bool
  encodedSize : Block → Nat
  merkleRoot : Block → Nat
  childTarget : BNode → Block → Nat
  childDepth : BNode → Nat
  forkStep : NState → Block → NState

/-- Errors of block acceptance; the source uses error values and strings,
modelled as constructors. -/
inductive BErr where
  | knownInvalid
  | blockKnown
  | knownOrphan
  | unknownOrphan
  | notMeetTarget
  | pastTimestamp
  | futureBlock
  | tooLarge
  | badMerkle
  | nilParent
deriving DecidableEq

/-- Insert into an ascending list of timestamps. -/
def insertAsc (x : Int) : List Int → List Int
  | [] => [x]
  | y :: rest => if x ≤ y then x :: y :: rest else y :: insertAsc x rest

/-- Ascending sort of timestamps (`sort.Ints` of the source: the sorted value
list is what the median index reads). -/
def sortTimestamps : List Int → List Int
  | [] => []
  | x :: rest => insertAsc x (sortTimestamps rest)

/-- `BlockNode.earliestChildTimestamp`: the median of the node's
`RecentTimestamps` — sort, take index `MedianTimestampWindow/2`.  The source
array always has 11 entries; a shorter list reads as 0 here where Go would
panic. -/
def earliestChildTimestamp (bn : BNode) : Int :=
  (sortTimestamps bn.RecentTimestamps).getD (MedianTimestampWindow / 2) 0

/-- `State.validHeader`, check for check in source order: target, not before
the median timestamp, not too far past `now` (`skew > FutureThreshold`), the
encoded size, the Merkle root.  A missing parent would be a nil dereference
in the source (`AcceptBlock` guards against it); it is the distinguished
`nilParent` here. -/
def validHeader (benv : BEnv) (now : Int) (s : NState) (b : Block) : Option BErr :=
  match s.blockMap b.ParentBlockID with
  | none => some .nilParent
  | some parent =>
    if ¬ benv.checkTarget b parent.Target then some .notMeetTarget
    else if b.Timestamp < earliestChildTimestamp parent then some .pastTimestamp
    else if FutureThreshold < b.Timestamp - now then some .futureBlock
    else if BlockSizeLimit < benv.encodedSize b then some .tooLarge
    else if b.MerkleRoot ≠ benv.merkleRoot b then some .badMerkle
    else none

/-- `State.handleOrphanBlock`: file the orphan under its missing parent and
report whether it was already known. -/
def handleOrphanBlock (benv : BEnv) (s : NState) (b : Block) : BErr × NState :=
  match s.missingParents b.ParentBlockID with
  | none =>
    let fresh := mupd (fun _ => none) (benv.blockID b) (some b)
    let mp := mupd s.missingParents b.ParentBlockID (some fresh)
    (.unknownOrphan, { s with missingParents := mp })
  | some m =>
    match m (benv.blockID b) with
    | some _ => (.knownOrphan, s)
    | none =>
      let grown := mupd m (benv.blockID b) (some b)
      let mp := mupd s.missingParents b.ParentBlockID (some grown)
      (.unknownOrphan, { s with missingParents := mp })

/-- `State.addBlockToTree`: create the child node (height, shifted timestamp
window, target and depth from the environment), insert it into `blockMap` and
append it to the parent's children.  The parent is present (the caller
checked); a missing parent reads as the zero node here where Go would
panic. -/
def addBlockToTree (benv : BEnv) (s : NState) (b : Block) : NState :=
  let parent := (s.blockMap b.ParentBlockID).getD zeroBNode
  let newNode : BNode :=
    { Block := b
      Height := parent.Height + 1
      RecentTimestamps := parent.RecentTimestamps.drop 1 ++ [b.Timestamp]
      Target := benv.childTarget parent b
      Depth := benv.childDepth parent
      Children := [] }
  let parent2 : BNode := { parent with Children := parent.Children ++ [benv.blockID b] }
  let bm := mupd (mupd s.blockMap (benv.blockID b) (some newNode)) b.ParentBlockID (some parent2)
  { s with blockMap := bm }

/-- `State.AcceptBlock`, branch for branch in source order: the `badBlocks`
lookup, the duplicate lookup, orphan handling, header validation (note: a
failed header leaves the state — `badBlocks` included — untouched), then
attachment and the fork-choice tail (abstracted, no claim reaches it).  The
rewound/applied/diff results of the source are produced by the absent
fork-choice code and are not modelled. -/
def AcceptBlock (benv : BEnv) (now : Int) (s : NState) (b : Block) :
    Option BErr × NState :=
  if s.badBlocks (benv.blockID b) then (some .knownInvalid, s)
  else if (s.blockMap (benv.blockID b)).isSome then (some .blockKnown, s)
  else if (s.blockMap b.ParentBlockID).isNone then
    let r := handleOrphanBlock benv s b
    (some r.1, r.2)
  else
    match validHeader benv now s b with
    | some e => (some e, s)
    | none => (none, benv.forkStep (addBlockToTree benv s b) b)

/-- `State.HeightOfBlock`: the height of the node of the given id; `none` is
the source's "no block of that id found" error. -/
def HeightOfBlock (s : NState) (bid : Nat) : Option BlockHeight :=
  (s.blockMap bid).map (fun bn => bn.Height)

/-- `State.blockAtHeight`: look up `currentPath` (a missing height reads as
the zero id, as a Go map read does) and then `blockMap`. -/
def BlockAtHeight (s : NState) (h : Nat) : Option Block :=
  match s.blockMap ((s.currentPath h).getD 0) with
  | some bn => some bn.Block
  | none => none

/-- `State.height()`: the height of the current block's node.  A missing node
would be a nil dereference in the source (the state invariant rules it out);
it reads as 0 here. -/
def stateHeight (s : NState) : Nat :=
  match s.blockMap s.currentBlockID with
  | some bn => bn.Height
  | none => 0

/-- The result component of `SendBlocks`: success, the benign "more blocks
are available" signal, or the "no matching block found" error. -/
inductive SendRes where
  | ok
  | moreBlocks
  | noMatchingBlock
deriving DecidableEq

/-- First loop of `SendBlocks`: scan `knownBlocks` for ids the state knows
(`HeightOfBlock` succeeds — any block of the tree, not only the active
chain), tracking whether one was found and the highest found height. -/
def findHighest (s : NState) : List Nat → Bool → BlockHeight → Bool × BlockHeight
  | [], found, highest => (found, highest)
  | bid :: rest, found, highest =>
    match HeightOfBlock s bid with
    | none => findHighest s rest found highest
    | some h => findHighest s rest true (if highest < h then h else highest)

/-- Second loop of `SendBlocks`: collect blocks of the active chain at
consecutive heights from `h`, stopping at the first miss, at most `n` of
them. -/
def collectBlocks (s : NState) : Nat → Nat → List Block
  | _, 0 => []
  | h, n + 1 =>
    match BlockAtHeight s h with
    | none => []
    | some b => b :: collectBlocks s (h + 1) n

/-- `Core.SendBlocks`: find the highest known id of `knownBlocks`, error when
none is known, otherwise send up to `MaxCatchUpBlocks` consecutive blocks of
the active chain from that height, signalling `moreBlocks` exactly when the
active chain has a block at `highest + MaxCatchUpBlocks`. -/
def SendBlocks (s : NState) (knownBlocks : List Nat) : List Block × SendRes :=
  let r := findHighest s knownBlocks false 0
  if ¬ r.1 then ([], .noMatchingBlock)
  else
    (collectBlocks s r.2 MaxCatchUpBlocks,
      if (BlockAtHeight s (r.2 + MaxCatchUpBlocks)).isSome then .moreBlocks else .ok)

/-- Subtraction of `uint64` block heights, with the wraparound the catch-up
loops rely on to run off the end of a short chain. -/
def sub64 (a b : Nat) : Nat := (a % 2 ^ 64 + (2 ^ 64 - b % 2 ^ 64)) % 2 ^ 64

/-- First loop of `CatchUp`: the ids of the blocks at heights `tip - i` for
`i = 0, …, 11`, stopping at the first miss. -/
def recentIDs (benv : BEnv) (s : NState) (tip : Nat) : Nat → Nat → List Nat
  | _, 0 => []
  | i, n + 1 =>
    match BlockAtHeight s (sub64 tip i) with
    | none => []
    | some b => benv.blockID b :: recentIDs benv s tip (i + 1) n

/-- Second loop of `CatchUp`: `backtrace` starts at 12 and doubles before
each lookup (`for i := 12; i < 31; i++`, 19 iterations), taking the block at
height `tip - backtrace`, stopping at the first miss. -/
def backtraceIDs (benv : BEnv) (s : NState) (tip : Nat) : Nat → Nat → List Nat
  | _, 0 => []
  | bt, n + 1 =>
    let bt2 := bt * 2 % 2 ^ 64
    match BlockAtHeight s (sub64 tip bt2) with
    | none => []
    | some b => benv.blockID b :: backtraceIDs benv s tip bt2 n

/-- The `knownBlocks` list `Core.CatchUp` builds: the 12-recent loop, the
exponential backtrace loop, and always finally the genesis block's id (the
error of the height-0 lookup is ignored; a miss reads as the zero block). -/
def catchUpKnownBlocks (benv : BEnv) (s : NState) : List Nat :=
  recentIDs benv s (stateHeight s) 0 12 ++
    backtraceIDs benv s (stateHeight s) 12 19 ++
    [benv.blockID ((BlockAtHeight s 0).getD zeroBlock)]

/-! ### Specification-side helpers -/

/-- The value the source reads for an input: the unspent output's value. -/
def inputValue (s : CState) (inp : Input) : Nat :=
  ((s.unspentOutputs inp.OutputID).getD zeroOutput).Value

/-- The sum of the values of a transaction's inputs, read from the state. -/
def txInputSum (s : CState) (t : Transaction) : Nat :=
  (t.Inputs.map (inputValue s)).sum

/-- The sum of a transaction's output values, miner fees and contract funds. -/
def txOutputSum (t : Transaction) : Nat :=
  t.MinerFees.sum + (t.Outputs.map (fun o => o.Value)).sum +
    (t.FileContracts.map (fun fc => fc.ContractFund)).sum

/-- The ids spent by a transaction's inputs. -/
def inputIDs (t : Transaction) : List Nat :=
  t.Inputs.map (fun inp => inp.OutputID)

/-- The ids of the outputs a transaction creates (`t.OutputID(i)`). -/
def newOutputIDs (env : Env) (t : Transaction) : List Nat :=
  (outputPairs env t).map Prod.fst

/-- The ids of the outputs a transaction's storage proofs create. -/
def proofOutputIDs (env : Env) (t : Transaction) : List Nat :=
  t.StorageProofs.map env.spOutputID

/-- The contracts a transaction's storage proofs reference. -/
def proofContractIDs (t : Transaction) : List Nat :=
  t.StorageProofs.map (fun sp => sp.ContractID)

/-- The ids of the contracts a transaction creates (`t.FileContractID(i)`). -/
def newContractIDs (env : Env) (t : Transaction) : List Nat :=
  (contractPairs env t).map Prod.fst

/-- Whether a contract is open with its current window not yet satisfied. -/
def contractOpenUnsat (s : CState) (cid : Nat) : Bool :=
  match s.openContracts cid with
  | some oc => !oc.WindowSatisfied
  | none => false

/-- The zero value of `FileContract`. -/
def zeroFileContract : FileContract :=
  { ContractFund := 0, Start := 0, End := 0, ChallengeWindow := 0,
    FileMerkleRoot := 0, ValidProofAddress := 0, MissedProofAddress := 0,
    Tolerance := 0 }

/-- The zero value of `OpenContract`. -/
def zeroOpenContract : OpenContract :=
  { FileContract := zeroFileContract, ContractID := 0, FundsRemaining := 0,
    Failures := 0, WindowSatisfied := false }

/-- The diffs the input loop of `applyTransaction` emits. -/
def inputDiffsOf (s : CState) (t : Transaction) : List OutputDiff :=
  t.Inputs.map (fun inp =>
    { New := false, ID := inp.OutputID,
      Output := (s.unspentOutputs inp.OutputID).getD zeroOutput })

/-- The diffs the output loop of `applyTransaction` emits. -/
def outputDiffsOf (env : Env) (t : Transaction) : List OutputDiff :=
  (outputPairs env t).map (fun p => { New := true, ID := p.1, Output := p.2 })

/-- The diffs the storage-proof loop of `applyTransaction` emits. -/
def proofDiffsOf (env : Env) (s : CState) (t : Transaction) : List OutputDiff :=
  t.StorageProofs.map (fun sp =>
    { New := true, ID := env.spOutputID sp,
      Output := spOutput env ((s.openContracts sp.ContractID).getD zeroOpenContract) })

/-- The precondition for applying and then inverting a transaction: the
checks `validTransaction` makes on inputs and storage proofs (each input
spends a distinct, existing unspent output; each storage proof references an
open contract whose current window is not yet satisfied, with the proofs
referencing pairwise-distinct contracts), the state invariant that no id is
both unspent and spent, and the spec's guarantee that derived ids never
collide across the history of a single chain (the new output, proof-output
and contract ids are pairwise distinct and not yet present anywhere). -/
def applyInvertPre (env : Env) (s : CState) (t : Transaction) : Prop :=
  (∀ oid ∈ inputIDs t, (s.unspentOutputs oid).isSome ∧ s.spentOutputs oid = none) ∧
  (inputIDs t).Nodup ∧
  (newOutputIDs env t).Nodup ∧
  (∀ oid ∈ newOutputIDs env t,
    s.unspentOutputs oid = none ∧ s.spentOutputs oid = none ∧ oid ∉ inputIDs t) ∧
  (proofOutputIDs env t).Nodup ∧
  (∀ oid ∈ proofOutputIDs env t,
    s.unspentOutputs oid = none ∧ s.spentOutputs oid = none ∧
      oid ∉ inputIDs t ∧ oid ∉ newOutputIDs env t) ∧
  (proofContractIDs t).Nodup ∧
  (∀ cid ∈ proofContractIDs t, contractOpenUnsat s cid = true) ∧
  (newContractIDs env t).Nodup ∧
  (∀ cid ∈ newContractIDs env t, s.openContracts cid = none)

/-- The disjointness invariant: no id is a key of both output maps. -/
def disjointMaps (s : CState) : Prop :=
  ∀ k : Nat, s.unspentOutputs k = none ∨ s.spentOutputs k = none

/-- The greatest height among the ids of `knownBlocks` the state knows, 0
when none (the initial value of the source's `highest`). -/
def maxKnownHeight (s : NState) (known : List Nat) : Nat :=
  known.foldl
    (fun acc bid =>
      match HeightOfBlock s bid with
      | some h => if acc < h then h else acc
      | none => acc) 0

/-! ### Concrete instances for the counterexamples and witnesses -/

/-- A concrete environment: the hash, signature and id-derivation oracles
instantiated with simple total functions (a spend-conditions hash that the
sample outputs' `SpendHash` values match, a signature check that accepts). -/
def envT : Env :=
  { coinAddress := fun _ => 0
    verifyBytes := fun _ _ _ => true
    sigHash := fun _ i => i
    outputID := fun _ i => 100 + i
    fileContractID := fun _ i => 200 + i
    spOutputID := fun sp => 300 + sp.ContractID
    proofPayout := fun oc => oc.FundsRemaining
    validContract := fun _ _ => true
    validProofWindow := fun _ _ => true }

/-- The empty mempool. -/
def poolEmpty : Pool :=
  { poolOutputs := fun _ => none, poolProofs := fun _ => none,
    transactionList := fun _ => none }

/-- Spend conditions requiring no signatures. -/
def scFree : SpendConditions := { TimeLock := 0, NumSignatures := 0, PublicKeys := [] }

/-- A state holding one unspent output of value 5 at id 1. -/
def csC1 : CState :=
  { height := 0
    unspentOutputs := fun k => if k = 1 then some { Value := 5, SpendHash := 0 } else none
    spentOutputs := fun _ => none
    openContracts := fun _ => none }

/-- A transaction spending the value-5 output into a single value-3 output:
a surplus of 2. -/
def tC1 : Transaction :=
  { Inputs := [{ OutputID := 1, SpendConditions := scFree }]
    Outputs := [{ Value := 3, SpendHash := 7 }]
    MinerFees := [], FileContracts := [], StorageProofs := [], Signatures := [] }

/-- A state holding one unspent output at id 1. -/
def csC2 : CState :=
  { height := 0
    unspentOutputs := fun k => if k = 1 then some { Value := 0, SpendHash := 0 } else none
    spentOutputs := fun _ => none
    openContracts := fun _ => none }

/-- A transaction whose single input requires 2 signatures over the key list
`[7]`, signed twice with the same key index 0. -/
def tC2 : Transaction :=
  { Inputs := [{ OutputID := 1,
                 SpendConditions := { TimeLock := 0, NumSignatures := 2, PublicKeys := [7] } }]
    Outputs := [], MinerFees := [], FileContracts := [], StorageProofs := []
    Signatures :=
      [{ InputID := 1, PublicKeyIndex := 0, TimeLock := 0, Signature := 0 },
       { InputID := 1, PublicKeyIndex := 0, TimeLock := 0, Signature := 0 }] }

/-- A transaction carrying a signature whose `InputID` (2) is not the id of
any of its inputs (its only input spends id 1). -/
def tC10 : Transaction :=
  { Inputs := [{ OutputID := 1, SpendConditions := scFree }]
    Outputs := [], MinerFees := [], FileContracts := [], StorageProofs := []
    Signatures := [{ InputID := 2, PublicKeyIndex := 0, TimeLock := 0, Signature := 0 }] }

/-- A state holding unspent outputs of values 1 and 2 at ids 1 and 2. -/
def csC3 : CState :=
  { height := 0
    unspentOutputs := fun k =>
      if k = 1 then some { Value := 1, SpendHash := 0 }
      else if k = 2 then some { Value := 2, SpendHash := 0 } else none
    spentOutputs := fun _ => none
    openContracts := fun _ => none }

/-- A two-input, one-output transaction (values 1 + 2 = 3). -/
def tC3 : Transaction :=
  { Inputs := [{ OutputID := 1, SpendConditions := scFree },
               { OutputID := 2, SpendConditions := scFree }]
    Outputs := [{ Value := 3, SpendHash := 9 }]
    MinerFees := [], FileContracts := [], StorageProofs := [], Signatures := [] }

/-- The state after applying `tC3` to `csC3`. -/
def csC3post : CState := ((applyTransaction envT csC3 tC3).getD (csC3, [])).1

/-- The diffs of applying `tC3` to `csC3`. -/
def dsC3apply : List OutputDiff := ((applyTransaction envT csC3 tC3).getD (csC3, [])).2

/-- A pooled transaction spending output id 1. -/
def tC5pool : Transaction :=
  { Inputs := [{ OutputID := 1, SpendConditions := scFree }]
    Outputs := [], MinerFees := [], FileContracts := [], StorageProofs := [], Signatures := [] }

/-- A mempool in which output id 1 is already spent by `tC5pool`. -/
def poolC5 : Pool :=
  { poolOutputs := fun k => if k = 1 then some tC5pool else none
    poolProofs := fun _ => none
    transactionList := fun k => if k = 1 then some tC5pool else none }

/-- A transaction that also spends output id 1. -/
def tC5 : Transaction :=
  { Inputs := [{ OutputID := 1, SpendConditions := scFree }]
    Outputs := [{ Value := 5, SpendHash := 4 }]
    MinerFees := [], FileContracts := [], StorageProofs := [], Signatures := [] }

/-- A concrete block environment: the block id is the nonce, the target,
size and Merkle checks accept, and the fork tail is the identity. -/
def benvT : BEnv :=
  { blockID := fun b => b.Nonce
    checkTarget := fun _ _ => true
    encodedSize := fun _ => 0
    merkleRoot := fun _ => 0
    childTarget := fun _ _ => 0
    childDepth := fun _ => 0
    forkStep := fun s _ => s }

/-- A genesis-like node (id 1) whose 11 recent timestamps are all 100, so the
median timestamp of any child is 100. -/
def nodeC6 : BNode :=
  { Block := { zeroBlock with Nonce := 1 }
    Height := 0
    RecentTimestamps := List.replicate 11 100
    Target := 0, Depth := 0, Children := [] }

/-- A state whose tree holds only the node of id 1, with empty `badBlocks`. -/
def sC6 : NState :=
  { badBlocks := fun _ => false
    blockMap := fun bid => if bid = 1 then some nodeC6 else none
    missingParents := fun _ => none
    currentBlockID := 1
    currentPath := fun h => if h = 0 then some 1 else none }

/-- A child of block 1 whose timestamp 50 is below the median 100. -/
def bC6 : Block :=
  { ParentBlockID := 1, Nonce := 7, Timestamp := 50, MinerAddress := 0,
    MerkleRoot := 0, Transactions := [] }

/-- A child of block 1 with timestamp exactly the median 100. -/
def bC7 : Block :=
  { ParentBlockID := 1, Nonce := 9, Timestamp := 100, MinerAddress := 0,
    MerkleRoot := 0, Transactions := [] }

/-- A side-chain node of id 99 at height 5 (not on the current path). -/
def nodeC8 : BNode :=
  { Block := { zeroBlock with Nonce := 99 }
    Height := 5
    RecentTimestamps := List.replicate 11 100
    Target := 0, Depth := 0, Children := [] }

/-- A state whose active chain is only the genesis (id 1 at height 0) but
whose block map also knows the side-chain block 99 at height 5. -/
def sC8 : NState :=
  { badBlocks := fun _ => false
    blockMap := fun bid =>
      if bid = 1 then some nodeC6 else if bid = 99 then some nodeC8 else none
    missingParents := fun _ => none
    currentBlockID := 1
    currentPath := fun h => if h = 0 then some 1 else none }

/-- A `knownBlocks` array holding only the side-chain id 99 and zero ids. -/
def knownC8 : List Nat := 99 :: List.replicate 31 0

/-- The height `12·2^19`, reached by the backtrace loop of `CatchUp` at its
19th and final iteration. -/
def tipC9 : Nat := 12 * 2 ^ 19

/-- A state whose active chain runs from height 0 to `12·2^19`, the block at
height `h` having id `h + 1`. -/
def sC9 : NState :=
  { badBlocks := fun _ => false
    blockMap := fun bid =>
      if 1 ≤ bid ∧ bid ≤ tipC9 + 1 then
        some { Block := { zeroBlock with Nonce := bid }, Height := bid - 1,
               RecentTimestamps := [], Target := 0, Depth := 0, Children := [] }
      else none
    missingParents := fun _ => none
    currentBlockID := tipC9 + 1
    currentPath := fun h => if h ≤ tipC9 then some (h + 1) else none }

/-- The `(payout output id, payout output)` pairs of a transaction's storage
proofs, read against the pre-state. -/
def spPairsOf (env : Env) (s : CState) (t : Transaction) : List (Nat × Output) :=
  t.StorageProofs.map (fun sp =>
    (env.spOutputID sp, spOutput env ((s.openContracts sp.ContractID).getD zeroOpenContract)))

/-- The consensus state after `applyTransaction`, in closed form: inputs
moved from `unspentOutputs` to `spentOutputs`, the transaction's outputs and
the storage-proof payout outputs inserted, proof-referenced contracts marked
window-satisfied, and the new contracts registered. -/
def appliedState (env : Env) (s : CState) (t : Transaction) : CState :=
  { height := s.height
    unspentOutputs := fun k =>
      match (spPairsOf env s t).lookup k with
      | some v => some v
      | none =>
        match (outputPairs env t).lookup k with
        | some v => some v
        | none => if k ∈ inputIDs t then none else s.unspentOutputs k
    spentOutputs := fun k =>
      if k ∈ inputIDs t then s.unspentOutputs k else s.spentOutputs k
    openContracts := fun c =>
      match (contractPairs env t).lookup c with
      | some fc =>
        some { FileContract := fc, ContractID := c, FundsRemaining := fc.ContractFund,
               Failures := 0, WindowSatisfied := false }
      | none =>
        if c ∈ proofContractIDs t then
          (s.openContracts c).map (fun oc => { oc with WindowSatisfied := true })
        else s.openContracts c }

/-! ### Basic lemmas about the map model -/

theorem CState.ext2 {s s2 : CState} (hh : s.height = s2.height)
    (hu : s.unspentOutputs = s2.unspentOutputs) (hs : s.spentOutputs = s2.spentOutputs)
    (hc : s.openContracts = s2.openContracts) : s = s2 := by
  cases s; cases s2; simp_all

theorem mem_keys_of_lookup_some {β : Type} (l : List (Nat × β)) (k : Nat) (v : β)
    (h : l.lookup k = some v) : k ∈ l.map Prod.fst := by
  induction l with
  | nil => cases h
  | cons p rest ih =>
    by_cases hk : k = p.1
    · simp [hk]
    · have hbeq : (k == p.1) = false := by simpa using hk
      simp only [List.lookup, hbeq] at h
      simp [ih h]

theorem mupd_same {β : Type} (m : Nat → Option β) (k : Nat) (v : Option β) :
    mupd m k v k = v := by
  simp [mupd]

theorem mupd_other {β : Type} (m : Nat → Option β) (k q : Nat) (v : Option β)
    (h : q ≠ k) : mupd m k v q = m q := by
  simp [mupd, h]

theorem lookup_none_of_not_mem {β : Type} :
    ∀ (pairs : List (Nat × β)) (k : Nat), k ∉ pairs.map Prod.fst →
      pairs.lookup k = none := by
  intro pairs
  induction pairs with
  | nil => intro k _; rfl
  | cons p rest ih =>
    intro k hk
    simp only [List.map_cons, List.mem_cons] at hk
    push_neg at hk
    have hbeq : (k == p.1) = false := by simpa using hk.1
    simp only [List.lookup, hbeq]
    exact ih k hk.2

theorem lookup_self_of_nodup {β : Type} :
    ∀ (pairs : List (Nat × β)) (p : Nat × β), (pairs.map Prod.fst).Nodup →
      p ∈ pairs → pairs.lookup p.1 = some p.2 := by
  intro pairs
  induction pairs with
  | nil => intro p _ hp; cases hp
  | cons q rest ih =>
    intro p hnd hp
    simp only [List.map_cons, List.nodup_cons] at hnd
    rcases List.mem_cons.mp hp with heq | hmem
    · subst heq
      simp [List.lookup]
    · have hne : p.1 ≠ q.1 := by
        intro hcontra
        exact hnd.1 (hcontra ▸ List.mem_map_of_mem Prod.fst hmem)
      have hbeq : (p.1 == q.1) = false := by simpa using hne
      simp only [List.lookup, hbeq]
      exact ih p hnd.2 hmem

/-! ### Phase characterizations of apply/invert (claims C3 and C4) -/

theorem applyInputs_spec :
    ∀ (l : List Input) (s : CState),
      (∀ inp ∈ l, (s.unspentOutputs inp.OutputID).isSome) →
      (l.map (fun inp => inp.OutputID)).Nodup →
      applyInputs s l = some
        ({ s with
            unspentOutputs := fun k =>
              if k ∈ l.map (fun inp => inp.OutputID) then none else s.unspentOutputs k
            spentOutputs := fun k =>
              if k ∈ l.map (fun inp => inp.OutputID) then s.unspentOutputs k
              else s.spentOutputs k },
          l.map (fun inp =>
            { New := false, ID := inp.OutputID,
              Output := (s.unspentOutputs inp.OutputID).getD zeroOutput })) := by
  intro l
  induction l with
  | nil =>
    intro s _ _
    simp only [applyInputs, List.map_nil]
    refine congrArg some (Prod.ext ?_ rfl)
    refine CState.ext2 rfl ?_ ?_ rfl
    · funext k; simp
    · funext k; simp
  | cons inp rest ih =>
    intro s hex hnd
    obtain ⟨out, hout⟩ := Option.isSome_iff_exists.mp (hex inp (by simp))
    simp only [List.map_cons, List.nodup_cons] at hnd
    have hrest : ∀ i ∈ rest,
        ((⟨s.height, mupd s.unspentOutputs inp.OutputID none,
          mupd s.spentOutputs inp.OutputID (some out), s.openContracts⟩ :
            CState).unspentOutputs i.OutputID).isSome := by
      intro i hi
      have hne : i.OutputID ≠ inp.OutputID := by
        intro hcontra
        exact hnd.1 (hcontra ▸ List.mem_map_of_mem (fun x => x.OutputID) hi)
      simpa [mupd, hne] using hex i (List.mem_cons_of_mem inp hi)
    have hstep := ih _ hrest hnd.2
    simp only [applyInputs, hout]
    rw [hstep]
    refine congrArg some (Prod.ext ?_ ?_)
    · refine CState.ext2 rfl ?_ ?_ rfl
      · funext k
        by_cases hk : k = inp.OutputID
        · subst hk
          simp [mupd, hnd.1]
        · by_cases hk2 : k ∈ rest.map (fun x => x.OutputID) <;>
            simp [hk, hk2, mupd]
      · funext k
        by_cases hk : k = inp.OutputID
        · subst hk
          simp [mupd, hnd.1, hout]
        · by_cases hk2 : k ∈ rest.map (fun x => x.OutputID) <;>
            simp [hk, hk2, mupd]
    · simp only [List.map_cons]
      congr 1
      · simp [hout]
      · refine List.map_congr_left ?_
        intro i hi
        have hne : i.OutputID ≠ inp.OutputID := by
          intro hcontra
          exact hnd.1 (hcontra ▸ List.mem_map_of_mem (fun x => x.OutputID) hi)
        simp [mupd, hne]

theorem applyOutputs_spec :
    ∀ (pairs : List (Nat × Output)) (s : CState),
      (pairs.map Prod.fst).Nodup →
      applyOutputs s pairs =
        ({ s with unspentOutputs := fun k =>
            match pairs.lookup k with
            | some v => some v
            | none => s.unspentOutputs k },
          pairs.map (fun p => { New := true, ID := p.1, Output := p.2 })) := by
  intro pairs
  induction pairs with
  | nil =>
    intro s _
    simp only [applyOutputs, List.map_nil]
    refine Prod.ext ?_ rfl
    refine CState.ext2 rfl ?_ rfl rfl
    funext k
    simp [List.lookup]
  | cons p rest ih =>
    intro s hnd
    obtain ⟨oid, out⟩ := p
    simp only [List.map_cons, List.nodup_cons] at hnd
    simp only [applyOutputs]
    rw [ih _ hnd.2]
    refine Prod.ext ?_ ?_
    · refine CState.ext2 rfl ?_ rfl rfl
      funext k
      by_cases hk : k = oid
      · subst hk
        have hlk : rest.lookup k = none := lookup_none_of_not_mem rest k hnd.1
        simp [List.lookup, hlk, mupd]
      · have hbeq : (k == oid) = false := by simpa using hk
        simp only [List.lookup, hbeq]
        cases hl : rest.lookup k <;> simp [mupd, hk, hl]
    · simp

theorem invertContracts_spec :
    ∀ (cids : List Nat) (s : CState),
      invertContracts s cids =
        { s with openContracts := fun c => if c ∈ cids then none else s.openContracts c } := by
  intro cids
  induction cids with
  | nil =>
    intro s
    simp only [invertContracts]
    refine CState.ext2 rfl rfl rfl ?_
    funext c
    simp
  | cons cid rest ih =>
    intro s
    simp only [invertContracts]
    rw [ih]
    refine CState.ext2 rfl rfl rfl ?_
    funext c
    by_cases hc : c = cid
    · subst hc
      by_cases hc2 : c ∈ rest <;> simp [hc2, mupd]
    · by_cases hc2 : c ∈ rest <;> simp [hc, hc2, mupd]

theorem invertOutputs_spec :
    ∀ (oids : List Nat) (s : CState),
      (∀ oid ∈ oids, (s.unspentOutputs oid).isSome) →
      oids.Nodup →
      invertOutputs s oids = some
        ({ s with unspentOutputs := fun k =>
            if k ∈ oids then none else s.unspentOutputs k },
          oids.map (fun oid =>
            { New := false, ID := oid,
              Output := (s.unspentOutputs oid).getD zeroOutput })) := by
  intro oids
  induction oids with
  | nil =>
    intro s _ _
    simp only [invertOutputs, List.map_nil]
    refine congrArg some (Prod.ext ?_ rfl)
    refine CState.ext2 rfl ?_ rfl rfl
    funext k
    simp
  | cons oid rest ih =>
    intro s hex hnd
    obtain ⟨out, hout⟩ := Option.isSome_iff_exists.mp (hex oid (by simp))
    simp only [List.nodup_cons] at hnd
    have hrest : ∀ i ∈ rest,
        ((⟨s.height, mupd s.unspentOutputs oid none, s.spentOutputs,
          s.openContracts⟩ : CState).unspentOutputs i).isSome := by
      intro i hi
      have hne : i ≠ oid := fun hcontra => hnd.1 (hcontra ▸ hi)
      simpa [mupd, hne] using hex i (List.mem_cons_of_mem oid hi)
    have hstep := ih _ hrest hnd.2
    simp only [invertOutputs, hout]
    rw [hstep]
    refine congrArg some (Prod.ext ?_ ?_)
    · refine CState.ext2 rfl ?_ rfl rfl
      funext k
      by_cases hk : k = oid
      · subst hk
        simp [mupd, hnd.1]
      · by_cases hk2 : k ∈ rest <;> simp [hk, hk2, mupd]
    · simp only [List.map_cons]
      congr 1
      · simp [hout]
      · refine List.map_congr_left ?_
        intro i hi
        have hne : i ≠ oid := fun hcontra => hnd.1 (hcontra ▸ hi)
        simp [mupd, hne]

theorem invertInputs_spec :
    ∀ (l : List Input) (s : CState),
      (l.map (fun inp => inp.OutputID)).Nodup →
      invertInputs s l =
        ({ s with
            unspentOutputs := fun k =>
              if k ∈ l.map (fun inp => inp.OutputID) then
                some ((s.spentOutputs k).getD zeroOutput)
              else s.unspentOutputs k
            spentOutputs := fun k =>
              if k ∈ l.map (fun inp => inp.OutputID) then none else s.spentOutputs k },
          l.map (fun inp =>
            { New := true, ID := inp.OutputID,
              Output := (s.spentOutputs inp.OutputID).getD zeroOutput })) := by
  intro l
  induction l with
  | nil =>
    intro s _
    simp only [invertInputs, List.map_nil]
    refine Prod.ext ?_ rfl
    refine CState.ext2 rfl ?_ ?_ rfl
    · funext k; simp
    · funext k; simp
  | cons inp rest ih =>
    intro s hnd
    simp only [List.map_cons, List.nodup_cons] at hnd
    simp only [invertInputs]
    rw [ih _ hnd.2]
    refine Prod.ext ?_ ?_
    · refine CState.ext2 rfl ?_ ?_ rfl
      · funext k
        by_cases hk : k = inp.OutputID
        · subst hk
          simp [mupd, hnd.1]
        · by_cases hk2 : k ∈ rest.map (fun x => x.OutputID) <;>
            simp [hk, hk2, mupd]
      · funext k
        by_cases hk : k = inp.OutputID
        · subst hk
          simp [mupd, hnd.1]
        · by_cases hk2 : k ∈ rest.map (fun x => x.OutputID) <;>
            simp [hk, hk2, mupd]
    · simp only [List.map_cons]
      congr 1
      · refine List.map_congr_left ?_
        intro i hi
        have hne : i.OutputID ≠ inp.OutputID := by
          intro hcontra
          exact hnd.1 (hcontra ▸ List.mem_map_of_mem (fun x => x.OutputID) hi)
        simp [mupd, hne]

theorem applyProofs_spec (env : Env) :
    ∀ (sps : List StorageProof) (s : CState),
      (∀ sp ∈ sps, (s.openContracts sp.ContractID).isSome) →
      (sps.map (fun sp => sp.ContractID)).Nodup →
      (sps.map env.spOutputID).Nodup →
      applyProofs env s sps = some
        ({ s with
            unspentOutputs := fun k =>
              match (sps.map (fun sp => (env.spOutputID sp,
                  spOutput env ((s.openContracts sp.ContractID).getD zeroOpenContract)))).lookup k with
              | some v => some v
              | none => s.unspentOutputs k
            openContracts := fun c =>
              if c ∈ sps.map (fun sp => sp.ContractID) then
                (s.openContracts c).map (fun oc => { oc with WindowSatisfied := true })
              else s.openContracts c },
          sps.map (fun sp =>
            { New := true, ID := env.spOutputID sp,
              Output := spOutput env ((s.openContracts sp.ContractID).getD zeroOpenContract) })) := by
  intro sps
  induction sps with
  | nil =>
    intro s _ _ _
    simp only [applyProofs, List.map_nil]
    refine congrArg some (Prod.ext ?_ rfl)
    refine CState.ext2 rfl ?_ rfl ?_
    · funext k; simp [List.lookup]
    · funext c; simp
  | cons sp rest ih =>
    intro s hex hq hp
    obtain ⟨oc, hoc⟩ := Option.isSome_iff_exists.mp (hex sp (by simp))
    simp only [List.map_cons, List.nodup_cons] at hq hp
    have hs1 : applyStorageProof env s sp = some
        (⟨s.height,
          mupd s.unspentOutputs (env.spOutputID sp) (some (spOutput env oc)),
          s.spentOutputs,
          mupd s.openContracts sp.ContractID (some { oc with WindowSatisfied := true })⟩,
          { New := true, ID := env.spOutputID sp, Output := spOutput env oc }) := by
      simp [applyStorageProof, hoc]
    have hocrest : ∀ sp2 ∈ rest,
        mupd s.openContracts sp.ContractID (some { oc with WindowSatisfied := true })
          sp2.ContractID = s.openContracts sp2.ContractID := by
      intro sp2 h2
      have hne : sp2.ContractID ≠ sp.ContractID := by
        intro hcontra
        exact hq.1 (hcontra ▸ List.mem_map_of_mem (fun x => x.ContractID) h2)
      simp [mupd, hne]
    have hexrest : ∀ sp2 ∈ rest,
        (mupd s.openContracts sp.ContractID (some { oc with WindowSatisfied := true })
          sp2.ContractID).isSome := by
      intro sp2 h2
      rw [hocrest sp2 h2]
      exact hex sp2 (List.mem_cons_of_mem sp h2)
    have hstep := ih
      (⟨s.height,
        mupd s.unspentOutputs (env.spOutputID sp) (some (spOutput env oc)),
        s.spentOutputs,
        mupd s.openContracts sp.ContractID (some { oc with WindowSatisfied := true })⟩ : CState)
      hexrest hq.2 hp.2
    simp only [applyProofs, hs1, hstep]
    have hpairs : rest.map (fun sp2 => (env.spOutputID sp2,
        spOutput env ((mupd s.openContracts sp.ContractID
          (some { oc with WindowSatisfied := true }) sp2.ContractID).getD zeroOpenContract))) =
        rest.map (fun sp2 => (env.spOutputID sp2,
          spOutput env ((s.openContracts sp2.ContractID).getD zeroOpenContract))) := by
      refine List.map_congr_left ?_
      intro sp2 h2
      rw [hocrest sp2 h2]
    refine congrArg some (Prod.ext ?_ ?_)
    · refine CState.ext2 rfl ?_ rfl ?_
      · funext k
        simp only [hpairs]
        by_cases hk : k = env.spOutputID sp
        · subst hk
          have hlk : (rest.map (fun sp2 => (env.spOutputID sp2,
              spOutput env ((s.openContracts sp2.ContractID).getD zeroOpenContract)))).lookup
              (env.spOutputID sp) = none := by
            refine lookup_none_of_not_mem _ _ ?_
            simpa [List.map_map, Function.comp] using hp.1
          simp [List.lookup, hlk, mupd, hoc]
        · have hbeq : (k == env.spOutputID sp) = false := by simpa using hk
          simp only [List.map_cons, List.lookup, hbeq]
          cases hl : (rest.map (fun sp2 => (env.spOutputID sp2,
              spOutput env ((s.openContracts sp2.ContractID).getD zeroOpenContract)))).lookup k <;>
            simp [mupd, hk, hl]
      · funext c
        by_cases hc : c = sp.ContractID
        · subst hc
          simp [mupd, hq.1, hoc]
        · by_cases hc2 : c ∈ rest.map (fun x => x.ContractID) <;>
            simp [hc, hc2, mupd]
    · simp only [List.map_cons]
      congr 1
      · simp [hoc]
      · refine List.map_congr_left ?_
        intro sp2 h2
        rw [hocrest sp2 h2]

theorem applyContracts_spec :
    ∀ (pairs : List (Nat × FileContract)) (s : CState),
      (pairs.map Prod.fst).Nodup →
      applyContracts s pairs =
        { s with openContracts := fun c =>
            match pairs.lookup c with
            | some fc =>
              some { FileContract := fc, ContractID := c,
                     FundsRemaining := fc.ContractFund, Failures := 0,
                     WindowSatisfied := false }
            | none => s.openContracts c } := by
  intro pairs
  induction pairs with
  | nil =>
    intro s _
    simp only [applyContracts]
    refine CState.ext2 rfl rfl rfl ?_
    funext c
    simp [List.lookup]
  | cons p rest ih =>
    intro s hnd
    obtain ⟨cid, fc⟩ := p
    simp only [List.map_cons, List.nodup_cons] at hnd
    simp only [applyContracts, applyContract]
    rw [ih _ hnd.2]
    refine CState.ext2 rfl rfl rfl ?_
    funext c
    by_cases hc : c = cid
    · subst hc
      have hlk : rest.lookup c = none := lookup_none_of_not_mem rest c hnd.1
      simp [List.lookup, hlk, mupd]
    · have hbeq : (c == cid) = false := by simpa using hc
      simp only [List.lookup, hbeq]
      cases hl : rest.lookup c <;> simp [mupd, hc, hl]

theorem invertProofs_spec (env : Env) :
    ∀ (sps : List StorageProof) (s : CState),
      (∀ sp ∈ sps, (s.openContracts sp.ContractID).isSome) →
      (sps.map (fun sp => sp.ContractID)).Nodup →
      (sps.map env.spOutputID).Nodup →
      invertProofs env s sps = some
        ({ s with
            unspentOutputs := fun k =>
              if k ∈ sps.map env.spOutputID then none else s.unspentOutputs k
            openContracts := fun c =>
              if c ∈ sps.map (fun sp => sp.ContractID) then
                (s.openContracts c).map (fun oc => { oc with WindowSatisfied := false })
              else s.openContracts c },
          sps.map (fun sp =>
            { New := false, ID := env.spOutputID sp,
              Output := (s.unspentOutputs (env.spOutputID sp)).getD zeroOutput })) := by
  intro sps
  induction sps with
  | nil =>
    intro s _ _ _
    simp only [invertProofs, List.map_nil]
    refine congrArg some (Prod.ext ?_ rfl)
    refine CState.ext2 rfl ?_ rfl ?_
    · funext k; simp
    · funext c; simp
  | cons sp rest ih =>
    intro s hex hq hp
    obtain ⟨oc, hoc⟩ := Option.isSome_iff_exists.mp (hex sp (by simp))
    simp only [List.map_cons, List.nodup_cons] at hq hp
    have hs1 : invertStorageProof env s sp = some
        (⟨s.height,
          mupd s.unspentOutputs (env.spOutputID sp) none,
          s.spentOutputs,
          mupd s.openContracts sp.ContractID (some { oc with WindowSatisfied := false })⟩,
          { New := false, ID := env.spOutputID sp,
            Output := (s.unspentOutputs (env.spOutputID sp)).getD zeroOutput }) := by
      simp [invertStorageProof, hoc]
    have hocrest : ∀ sp2 ∈ rest,
        mupd s.openContracts sp.ContractID (some { oc with WindowSatisfied := false })
          sp2.ContractID = s.openContracts sp2.ContractID := by
      intro sp2 h2
      have hne : sp2.ContractID ≠ sp.ContractID := by
        intro hcontra
        exact hq.1 (hcontra ▸ List.mem_map_of_mem (fun x => x.ContractID) h2)
      simp [mupd, hne]
    have hexrest : ∀ sp2 ∈ rest,
        (mupd s.openContracts sp.ContractID (some { oc with WindowSatisfied := false })
          sp2.ContractID).isSome := by
      intro sp2 h2
      rw [hocrest sp2 h2]
      exact hex sp2 (List.mem_cons_of_mem sp h2)
    have hstep := ih
      (⟨s.height,
        mupd s.unspentOutputs (env.spOutputID sp) none,
        s.spentOutputs,
        mupd s.openContracts sp.ContractID (some { oc with WindowSatisfied := false })⟩ : CState)
      hexrest hq.2 hp.2
    simp only [invertProofs, hs1, hstep]
    refine congrArg some (Prod.ext ?_ ?_)
    · refine CState.ext2 rfl ?_ rfl ?_
      · funext k
        by_cases hk : k = env.spOutputID sp
        · subst hk
          simp [mupd, hp.1]
        · by_cases hk2 : k ∈ rest.map env.spOutputID <;>
            simp [hk, hk2, mupd]
      · funext c
        by_cases hc : c = sp.ContractID
        · subst hc
          simp [mupd, hq.1, hoc]
        · by_cases hc2 : c ∈ rest.map (fun x => x.ContractID) <;>
            simp [hc, hc2, mupd]
    · simp only [List.map_cons]
      congr 1
      · refine List.map_congr_left ?_
        intro sp2 h2
        have hne : env.spOutputID sp2 ≠ env.spOutputID sp := by
          intro hcontra
          exact hp.1 (hcontra ▸ List.mem_map_of_mem env.spOutputID h2)
        simp [mupd, hne]

theorem applyTransaction_spec (env : Env) (s : CState) (t : Transaction)
    (hpre : applyInvertPre env s t) :
    applyTransaction env s t = some (appliedState env s t,
      inputDiffsOf s t ++ outputDiffsOf env t ++ proofDiffsOf env s t) := by
  obtain ⟨hIp, hInd, hOnd, hOf, hPnd, hPf, hQnd, hQw, hCnd, hCf⟩ := hpre
  have hIex : ∀ inp ∈ t.Inputs, (s.unspentOutputs inp.OutputID).isSome := by
    intro inp hi
    exact (hIp inp.OutputID (List.mem_map_of_mem (fun x => x.OutputID) hi)).1
  have hQsome : ∀ sp ∈ t.StorageProofs, (s.openContracts sp.ContractID).isSome := by
    intro sp hsp
    have := hQw sp.ContractID (List.mem_map_of_mem (fun x => x.ContractID) hsp)
    simp only [contractOpenUnsat] at this
    cases hcase : s.openContracts sp.ContractID with
    | none => rw [hcase] at this; cases this
    | some oc => simp
  have e1 := applyInputs_spec t.Inputs s hIex hInd
  have e2 := applyOutputs_spec (outputPairs env t)
    ⟨s.height,
      fun k => if k ∈ t.Inputs.map (fun inp => inp.OutputID) then none
               else s.unspentOutputs k,
      fun k => if k ∈ t.Inputs.map (fun inp => inp.OutputID) then s.unspentOutputs k
               else s.spentOutputs k,
      s.openContracts⟩ hOnd
  have e3 := applyProofs_spec env t.StorageProofs
    ⟨s.height,
      fun k =>
        match (outputPairs env t).lookup k with
        | some v => some v
        | none =>
          if k ∈ t.Inputs.map (fun inp => inp.OutputID) then none
          else s.unspentOutputs k,
      fun k => if k ∈ t.Inputs.map (fun inp => inp.OutputID) then s.unspentOutputs k
               else s.spentOutputs k,
      s.openContracts⟩ hQsome hQnd hPnd
  have e4 := applyContracts_spec (contractPairs env t)
    ⟨s.height,
      fun k =>
        match (t.StorageProofs.map (fun sp => (env.spOutputID sp,
            spOutput env ((s.openContracts sp.ContractID).getD zeroOpenContract)))).lookup k with
        | some v => some v
        | none =>
          match (outputPairs env t).lookup k with
          | some v => some v
          | none =>
            if k ∈ t.Inputs.map (fun inp => inp.OutputID) then none
            else s.unspentOutputs k,
      fun k => if k ∈ t.Inputs.map (fun inp => inp.OutputID) then s.unspentOutputs k
               else s.spentOutputs k,
      fun c =>
        if c ∈ t.StorageProofs.map (fun sp => sp.ContractID) then
          (s.openContracts c).map (fun oc => { oc with WindowSatisfied := true })
        else s.openContracts c⟩ hCnd
  simp only [applyTransaction, e1, e2, e3, e4]
  rfl

theorem invertTransaction_spec (env : Env) (s : CState) (t : Transaction)
    (hpre : applyInvertPre env s t) :
    invertTransaction env (appliedState env s t) t = some (s,
      (proofDiffsOf env s t).map flipDiff ++ (outputDiffsOf env t).map flipDiff ++
        (inputDiffsOf s t).map flipDiff) := by
  obtain ⟨hIp, hInd, hOnd, hOf, hPnd, hPf, hQnd, hQw, hCnd, hCf⟩ := hpre
  have hCQ : ∀ cid ∈ t.StorageProofs.map (fun sp => sp.ContractID),
      cid ∉ (contractPairs env t).map Prod.fst := by
    intro cid hcid hmem
    have h1 := hQw cid hcid
    have h2 := hCf cid hmem
    simp only [contractOpenUnsat, h2] at h1
    cases h1
  have hPkeys : ∀ k, (k ∈ t.StorageProofs.map env.spOutputID ↔
      k ∈ (spPairsOf env s t).map Prod.fst) := by
    intro k
    simp [spPairsOf, List.map_map, Function.comp]
  have e5 := invertContracts_spec ((contractPairs env t).map Prod.fst) (appliedState env s t)
  have hpres5 : ∀ sp ∈ t.StorageProofs,
      ((if sp.ContractID ∈ (contractPairs env t).map Prod.fst then none
        else (appliedState env s t).openContracts sp.ContractID)).isSome := by
    intro sp hsp
    have hqmem : sp.ContractID ∈ proofContractIDs t :=
      List.mem_map_of_mem (fun x => x.ContractID) hsp
    have hq := hQw sp.ContractID hqmem
    have hnc := hCQ sp.ContractID hqmem
    rw [if_neg hnc]
    simp only [appliedState]
    rw [lookup_none_of_not_mem _ _ hnc, if_pos hqmem]
    simp only [contractOpenUnsat] at hq
    cases hcase : s.openContracts sp.ContractID with
    | none => rw [hcase] at hq; cases hq
    | some oc => simp
  have e6 := invertProofs_spec env t.StorageProofs
    ⟨(appliedState env s t).height,
      (appliedState env s t).unspentOutputs,
      (appliedState env s t).spentOutputs,
      fun c => if c ∈ (contractPairs env t).map Prod.fst then none
               else (appliedState env s t).openContracts c⟩ hpres5 hQnd hPnd
  have hpres6 : ∀ oid ∈ (outputPairs env t).map Prod.fst,
      ((if oid ∈ t.StorageProofs.map env.spOutputID then none
        else (appliedState env s t).unspentOutputs oid)).isSome := by
    intro oid hoid
    have hoid2 : oid ∈ newOutputIDs env t := hoid
    have hnp : oid ∉ t.StorageProofs.map env.spOutputID := by
      intro hmem
      exact (hPf oid hmem).2.2.2 hoid2
    rw [if_neg hnp]
    simp only [appliedState]
    rw [lookup_none_of_not_mem _ _ (fun hmem => hnp ((hPkeys oid).mpr hmem))]
    obtain ⟨p, hp, hpeq⟩ := List.mem_map.mp hoid
    rw [← hpeq, lookup_self_of_nodup _ p hOnd hp]
    simp
  have e7 := invertOutputs_spec ((outputPairs env t).map Prod.fst)
    ⟨(appliedState env s t).height,
      fun k => if k ∈ t.StorageProofs.map env.spOutputID then none
               else (appliedState env s t).unspentOutputs k,
      (appliedState env s t).spentOutputs,
      fun c =>
        if c ∈ t.StorageProofs.map (fun sp => sp.ContractID) then
          (if c ∈ (contractPairs env t).map Prod.fst then none
           else (appliedState env s t).openContracts c).map
            (fun oc => { oc with WindowSatisfied := false })
        else if c ∈ (contractPairs env t).map Prod.fst then none
             else (appliedState env s t).openContracts c⟩ hpres6 hOnd
  have e8 := invertInputs_spec t.Inputs
    ⟨(appliedState env s t).height,
      fun k => if k ∈ (outputPairs env t).map Prod.fst then none
               else if k ∈ t.StorageProofs.map env.spOutputID then none
               else (appliedState env s t).unspentOutputs k,
      (appliedState env s t).spentOutputs,
      fun c =>
        if c ∈ t.StorageProofs.map (fun sp => sp.ContractID) then
          (if c ∈ (contractPairs env t).map Prod.fst then none
           else (appliedState env s t).openContracts c).map
            (fun oc => { oc with WindowSatisfied := false })
        else if c ∈ (contractPairs env t).map Prod.fst then none
             else (appliedState env s t).openContracts c⟩ hInd
  simp only [invertTransaction, e5, e6, e7, e8]
  refine congrArg some (Prod.ext ?_ ?_)
  · refine CState.ext2 ?_ ?_ ?_ ?_
    · rfl
    · funext k
      by_cases hkI : k ∈ t.Inputs.map (fun inp => inp.OutputID)
      · obtain ⟨v, hv⟩ := Option.isSome_iff_exists.mp (hIp k hkI).1
        have hkI2 : ∃ a ∈ t.Inputs, a.OutputID = k := by simpa using hkI
        simp [appliedState, inputIDs, hkI, hkI2, hv]
      · have hkI2 : ¬ ∃ a ∈ t.Inputs, a.OutputID = k := by simpa using hkI
        by_cases hkO : k ∈ (outputPairs env t).map Prod.fst
        · have hkO2 : ∃ a ∈ outputPairs env t, a.1 = k := by simpa using hkO
          simp [hkI, hkI2, hkO, hkO2, (hOf k hkO).1]
        · have hkO2 : ¬ ∃ a ∈ outputPairs env t, a.1 = k := by simpa using hkO
          by_cases hkP : k ∈ t.StorageProofs.map env.spOutputID
          · have hkP2 : ∃ a ∈ t.StorageProofs, env.spOutputID a = k := by simpa using hkP
            simp [hkI, hkI2, hkO, hkO2, hkP, hkP2, (hPf k hkP).1]
          · have hkP2 : ¬ ∃ a ∈ t.StorageProofs, env.spOutputID a = k := by
              simpa using hkP
            have hlkP : (spPairsOf env s t).lookup k = none :=
              lookup_none_of_not_mem _ _ (fun hmem => hkP ((hPkeys k).mpr hmem))
            have hlkO : (outputPairs env t).lookup k = none :=
              lookup_none_of_not_mem _ _ hkO
            simp [appliedState, inputIDs, hkI, hkI2, hkO, hkO2, hkP, hkP2, hlkP, hlkO]
    · funext k
      by_cases hkI : k ∈ t.Inputs.map (fun inp => inp.OutputID)
      · have hkI2 : ∃ a ∈ t.Inputs, a.OutputID = k := by simpa using hkI
        simp [appliedState, inputIDs, hkI, hkI2, (hIp k hkI).2]
      · have hkI2 : ¬ ∃ a ∈ t.Inputs, a.OutputID = k := by simpa using hkI
        simp [appliedState, inputIDs, hkI, hkI2]
    · funext c
      by_cases hcQ : c ∈ t.StorageProofs.map (fun sp => sp.ContractID)
      · have hcQ2 : ∃ a ∈ t.StorageProofs, a.ContractID = c := by simpa using hcQ
        have hnc := hCQ c hcQ
        have hnc2 : ¬ ∃ a ∈ contractPairs env t, a.1 = c := by simpa using hnc
        have hlkC : (contractPairs env t).lookup c = none :=
          lookup_none_of_not_mem _ _ hnc
        have hq := hQw c hcQ
        simp only [contractOpenUnsat] at hq
        cases hcase : s.openContracts c with
        | none => rw [hcase] at hq; cases hq
        | some oc =>
          rw [hcase] at hq
          simp only [Bool.not_eq_true'] at hq
          cases oc with
          | mk f cid fr fa ws =>
            simp only at hq
            subst hq
            simp [appliedState, proofContractIDs, hcQ, hcQ2, hnc, hnc2, hlkC, hcase]
      · have hcQ2 : ¬ ∃ a ∈ t.StorageProofs, a.ContractID = c := by simpa using hcQ
        by_cases hcC : c ∈ (contractPairs env t).map Prod.fst
        · have hcC2 : ∃ a ∈ contractPairs env t, a.1 = c := by simpa using hcC
          simp [hcQ, hcQ2, hcC, hcC2, (hCf c hcC)]
        · have hcC2 : ¬ ∃ a ∈ contractPairs env t, a.1 = c := by simpa using hcC
          have hlkC : (contractPairs env t).lookup c = none :=
            lookup_none_of_not_mem _ _ hcC
          simp [appliedState, proofContractIDs, hcQ, hcQ2, hcC, hcC2, hlkC]
  · dsimp only
    congr 1
    · congr 1
      · rw [proofDiffsOf, List.map_map]
        refine List.map_congr_left ?_
        intro sp hsp
        have hnd2 : ((spPairsOf env s t).map Prod.fst).Nodup := by
          simpa [spPairsOf, List.map_map, Function.comp] using hPnd
        have hlk : (spPairsOf env s t).lookup (env.spOutputID sp) =
            some (spOutput env ((s.openContracts sp.ContractID).getD zeroOpenContract)) :=
          lookup_self_of_nodup (spPairsOf env s t)
            (env.spOutputID sp,
              spOutput env ((s.openContracts sp.ContractID).getD zeroOpenContract))
            hnd2 (List.mem_map_of_mem _ hsp)
        simp [appliedState, flipDiff, Function.comp, hlk]
      · rw [outputDiffsOf, List.map_map, List.map_map]
        refine List.map_congr_left ?_
        intro p hp
        have hpmem : p.1 ∈ newOutputIDs env t := List.mem_map_of_mem Prod.fst hp
        have hnp : p.1 ∉ t.StorageProofs.map env.spOutputID := by
          intro hmem
          exact (hPf p.1 hmem).2.2.2 hpmem
        have hnp2 : ¬ ∃ a ∈ t.StorageProofs, env.spOutputID a = p.1 := by simpa using hnp
        have hlkP : (spPairsOf env s t).lookup p.1 = none :=
          lookup_none_of_not_mem _ _ (fun hmem => hnp ((hPkeys p.1).mpr hmem))
        have hlkO : (outputPairs env t).lookup p.1 = some p.2 :=
          lookup_self_of_nodup _ p hOnd hp
        simp [appliedState, flipDiff, Function.comp, hnp, hnp2, hlkP, hlkO]
    · rw [inputDiffsOf, List.map_map]
      refine List.map_congr_left ?_
      intro inp hinp
      have hkI : inp.OutputID ∈ inputIDs t :=
        List.mem_map_of_mem (fun x => x.OutputID) hinp
      have hkI2 : ∃ a ∈ t.Inputs, a.OutputID = inp.OutputID := ⟨inp, hinp, rfl⟩
      simp [appliedState, flipDiff, Function.comp, inputIDs, hkI, hkI2]

/-! ### Sums of the validation loops (claim C1) -/

theorem foldl_add_map {α : Type} (f : α → Nat) :
    ∀ (l : List α) (a : Nat), l.foldl (fun acc x => acc + f x) a = a + (l.map f).sum := by
  intro l
  induction l with
  | nil => intro a; simp
  | cons x xs ih =>
    intro a
    simp only [List.foldl_cons, List.map_cons, List.sum_cons]
    rw [ih]
    omega

theorem checkInputs_ok_sum (env : Env) (s : CState) :
    ∀ (l : List Input) (i sum : Nat) (m : List (Nat × InputSignatures))
      (r : Nat × List (Nat × InputSignatures)),
      checkInputs env s l i sum m = .ok r → r.1 = sum + (l.map (inputValue s)).sum := by
  intro l
  induction l with
  | nil =>
    intro i sum m r h
    simp only [checkInputs] at h
    cases h
    simp
  | cons inp rest ih =>
    intro i sum m r h
    simp only [checkInputs] at h
    cases hv : validInput env s inp with
    | some e => rw [hv] at h; cases h
    | none =>
      rw [hv] at h
      by_cases hl : (m.lookup inp.OutputID).isSome
      · rw [if_pos hl] at h; cases h
      · rw [if_neg hl] at h
        have := ih _ _ _ _ h
        simp only [List.map_cons, List.sum_cons, inputValue] at this ⊢
        omega

theorem checkContracts_ok_sum (env : Env) (s : CState) :
    ∀ (l : List FileContract) (sum r : Nat),
      checkContracts env s l sum = .ok r →
      r = sum + (l.map (fun fc => fc.ContractFund)).sum := by
  intro l
  induction l with
  | nil =>
    intro sum r h
    simp only [checkContracts] at h
    cases h
    simp
  | cons fc rest ih =>
    intro sum r h
    simp only [checkContracts] at h
    by_cases hv : env.validContract s fc
    · rw [if_pos hv] at h
      have := ih _ _ h
      simp only [List.map_cons, List.sum_cons] at this ⊢
      omega
    · rw [if_neg hv] at h; cases h

/-- Claim C1 (amended): `validTransaction` (and hence `AcceptTransaction`)
succeeds only if the sum of the transaction's input values is at least the
sum of its output values, miner fees and contract funds: a deficit is
rejected, but — contrary to the claim — a surplus is accepted (the source
checks only `inputSum < outputSum`). -/
theorem validTransaction_ok_no_deficit (env : Env) (s : CState) (p : Pool)
    (t : Transaction) :
    (validTransaction env s t = .ok → txOutputSum t ≤ txInputSum s t) ∧
    ((AcceptTransaction env s p t).1 = .ok → txOutputSum t ≤ txInputSum s t) := by
  have main : validTransaction env s t = .ok → txOutputSum t ≤ txInputSum s t := by
    intro h
    simp only [validTransaction] at h
    split at h
    · exact absurd h (by simp)
    · exact absurd h (by simp)
    next inputSum sigMap h1 =>
      split at h
      · exact absurd h (by simp)
      · exact absurd h (by simp)
      next outputSum h2 =>
        split at h
        · exact absurd h (by simp)
        next h3 =>
          split at h
          · exact absurd h (by simp)
          next hlt =>
            have hin : inputSum = 0 + (t.Inputs.map (inputValue s)).sum :=
              checkInputs_ok_sum env s t.Inputs 0 0 [] (inputSum, sigMap) h1
            have hout := checkContracts_ok_sum env s t.FileContracts _ _ h2
            have hfee : t.MinerFees.foldl (fun a f => a + f) 0 = t.MinerFees.sum := by
              rw [foldl_add_map (fun x => x) t.MinerFees 0]
              simp [List.map_id']
            have hov : t.Outputs.foldl (fun (a : Nat) (o : Output) => a + o.Value) 0 =
                (t.Outputs.map (fun o => o.Value)).sum := by
              rw [foldl_add_map (fun (o : Output) => o.Value) t.Outputs 0]
              simp
            rw [hfee, hov] at hout
            simp only [txOutputSum, txInputSum]
            omega
  refine ⟨main, ?_⟩
  intro h
  simp only [AcceptTransaction] at h
  by_cases hc : transactionPoolConflict p t
  · rw [if_pos hc] at h; cases h
  · rw [if_neg hc] at h
    cases hv : validTransaction env s t with
    | failed e => rw [hv] at h; cases h
    | panicked => rw [hv] at h; cases h
    | ok => exact main hv

/-- Witness for claim C1's amended theorem at the concrete surplus
transaction `tC1` over `csC1`. -/
theorem validTransaction_ok_no_deficit_witness : txOutputSum tC1 ≤ txInputSum csC1 tC1 :=
  (validTransaction_ok_no_deficit envT csC1 poolEmpty tC1).1 (by decide)

/-- Counterexample to claim C1 as stated: the transaction `tC1` has input sum
5 and output-side sum 3 — a strict surplus — yet `validTransaction` and
`AcceptTransaction` both accept it. -/
theorem validTransaction_surplus_accepted :
    validTransaction envT csC1 tC1 = .ok ∧
    txInputSum csC1 tC1 = 5 ∧ txOutputSum tC1 = 3 ∧
    (AcceptTransaction envT csC1 poolEmpty tC1).1 = .ok := by
  refine ⟨by decide, by decide, by decide, by decide⟩

/-! ### Mempool conflicts (claim C5) -/

/-- Claim C5: if an input of the transaction is already indexed in
`poolOutputs` or a storage proof's contract is indexed in `poolProofs`,
`AcceptTransaction` returns the `ConflictingTransactionErr` and leaves both
the mempool and the consensus state unchanged; and whenever it returns any
error the mempool and the consensus state are unchanged. -/
theorem acceptTransaction_conflict_unchanged (env : Env) (s : CState) (p : Pool)
    (t : Transaction) :
    ((∃ inp ∈ t.Inputs, (p.poolOutputs inp.OutputID).isSome) ∨
        (∃ sp ∈ t.StorageProofs, (p.poolProofs sp.ContractID).isSome) →
      AcceptTransaction env s p t = (.failed .conflictingTransaction, s, p)) ∧
    (∀ e : TxErr, (AcceptTransaction env s p t).1 = .failed e →
      AcceptTransaction env s p t = (.failed e, s, p)) := by
  have hconf : transactionPoolConflict p t = true ↔
      ((∃ inp ∈ t.Inputs, (p.poolOutputs inp.OutputID).isSome) ∨
        (∃ sp ∈ t.StorageProofs, (p.poolProofs sp.ContractID).isSome)) := by
    simp [transactionPoolConflict, List.any_eq_true]
  constructor
  · intro h
    rw [← hconf] at h
    simp [AcceptTransaction, h]
  · intro e h
    simp only [AcceptTransaction] at h ⊢
    by_cases hc : transactionPoolConflict p t
    · rw [if_pos hc] at h ⊢
      have h2 : TxResult.failed .conflictingTransaction = TxResult.failed e := h
      cases h2
      rfl
    · rw [if_neg hc] at h ⊢
      cases hv : validTransaction env s t with
      | failed e2 =>
        rw [hv] at h
        have h2 : TxResult.failed e2 = TxResult.failed e := h
        cases h2
        rfl
      | panicked =>
        rw [hv] at h
        cases (show TxResult.panicked = TxResult.failed e from h)
      | ok =>
        rw [hv] at h
        cases (show TxResult.ok = TxResult.failed e from h)

/-- Witness for claim C5 at the concrete double spend: with `tC5pool` in the
pool spending output 1, `tC5` (which also spends output 1) is rejected with
the conflict error and the pool and state are unchanged. -/
theorem acceptTransaction_conflict_unchanged_witness :
    AcceptTransaction envT csC1 poolC5 tC5 = (.failed .conflictingTransaction, csC1, poolC5) :=
  (acceptTransaction_conflict_unchanged envT csC1 poolC5 tC5).1
    (Or.inl (by decide))

/-! ### Header validation and the timestamp interval (claim C7) -/

/-- Claim C7: with the target, size and Merkle checks passing, `validHeader`
accepts exactly the timestamps in the closed interval from the parent's
median timestamp (`earliestChildTimestamp`) to `now + FutureThreshold`; above
the interval it fails with the distinct `FutureBlockErr`, below it with the
past-timestamp error. -/
theorem validHeader_timestamp_interval (benv : BEnv) (now : Int) (s : NState)
    (b : Block) (pn : BNode) (hp : s.blockMap b.ParentBlockID = some pn)
    (ht : benv.checkTarget b pn.Target = true)
    (hs : benv.encodedSize b ≤ BlockSizeLimit)
    (hm : b.MerkleRoot = benv.merkleRoot b) :
    (validHeader benv now s b = none ↔
      earliestChildTimestamp pn ≤ b.Timestamp ∧ b.Timestamp ≤ now + FutureThreshold) ∧
    (validHeader benv now s b = some .futureBlock ↔
      earliestChildTimestamp pn ≤ b.Timestamp ∧ now + FutureThreshold < b.Timestamp) ∧
    (b.Timestamp < earliestChildTimestamp pn →
      validHeader benv now s b = some .pastTimestamp) := by
  have htn : ¬ ¬ benv.checkTarget b pn.Target = true := by simp [ht]
  have hsz : ¬ BlockSizeLimit < benv.encodedSize b := not_lt.mpr hs
  have hmr : ¬ b.MerkleRoot ≠ benv.merkleRoot b := by simp [hm]
  simp only [validHeader, hp]
  rw [if_neg htn]
  by_cases h1 : b.Timestamp < earliestChildTimestamp pn
  · rw [if_pos h1]
    refine ⟨⟨?_, ?_⟩, ⟨?_, ?_⟩, ?_⟩
    · intro hh; cases hh
    · intro hh; exfalso; omega
    · intro hh; cases hh
    · intro hh; exfalso; omega
    · intro _; rfl
  · rw [if_neg h1]
    by_cases h2 : FutureThreshold < b.Timestamp - now
    · rw [if_pos h2]
      refine ⟨⟨?_, ?_⟩, ⟨?_, ?_⟩, ?_⟩
      · intro hh; cases hh
      · intro hh; exfalso; omega
      · intro _; omega
      · intro _; rfl
      · intro hh; exact absurd hh h1
    · rw [if_neg h2, if_neg hsz, if_neg hmr]
      refine ⟨⟨?_, ?_⟩, ⟨?_, ?_⟩, ?_⟩
      · intro _; omega
      · intro _; rfl
      · intro hh; cases hh
      · intro hh; exfalso; omega
      · intro hh; exact absurd hh h1

/-- Witness for claim C7's theorem: a child of the all-100 timestamp node
with timestamp exactly the median 100 and `now = 0` (so the future bound is
10800) is accepted, and one with timestamp 10801 is rejected as a future
block. -/
theorem validHeader_timestamp_interval_witness :
    validHeader benvT 0 sC6 bC7 = none ∧
    validHeader benvT 0 sC6 { bC7 with Timestamp := 10801 } = some .futureBlock := by
  constructor
  · exact (validHeader_timestamp_interval benvT 0 sC6 bC7 nodeC6 (by decide)
      (by decide) (by decide) (by decide)).1.mpr ⟨by decide, by decide⟩
  · exact (validHeader_timestamp_interval benvT 0 sC6 { bC7 with Timestamp := 10801 }
      nodeC6 (by decide) (by decide) (by decide) (by decide)).2.1.mpr ⟨by decide, by decide⟩

/-! ### The unused `UsedKeys` set (claim C2) -/

/-- Claim C2, demonstration of the code bug: the transaction `tC2` has a
single input requiring 2 signatures over the one-key list `[7]` and carries
two signatures that both use public-key index 0, yet `validTransaction`
accepts it — the source checks `UsedKeys` but never inserts into it, so the
"public key used twice" rejection the claim (and the source's own comment
"Check that each signature signs a unique pubkey") describes can never fire,
and one listed key is counted twice toward `NumSignatures`. -/
theorem validTransaction_duplicate_key_accepted :
    tC2.Signatures.map (fun sg => sg.PublicKeyIndex) = [0, 0] ∧
    tC2.Inputs.map (fun inp => inp.SpendConditions.NumSignatures) = [2] ∧
    validTransaction envT csC2 tC2 = .ok := by
  refine ⟨by decide, by decide, by decide⟩

/-! ### `badBlocks` is never populated (claim C6) -/

/-- Claim C6, demonstration of the code bug: the block `bC6` is a non-orphan
child of the known block 1 whose timestamp 50 is below the parent's median
100, so its header fails validation — but `AcceptBlock` leaves `badBlocks`
empty (no code path ever inserts into it, despite the source comment "reject
and put in bad blocks"), and a second `AcceptBlock` of the same block repeats
the full header validation and returns the same header error instead of the
cheap `badBlocks` rejection. -/
theorem acceptBlock_does_not_record_bad_block :
    (AcceptBlock benvT 1000 sC6 bC6).1 = some .pastTimestamp ∧
    ((AcceptBlock benvT 1000 sC6 bC6).2).badBlocks (benvT.blockID bC6) = false ∧
    (AcceptBlock benvT 1000 ((AcceptBlock benvT 1000 sC6 bC6).2) bC6).1 =
      some .pastTimestamp := by
  refine ⟨by decide, by decide, by decide⟩

/-! ### The signature-map nil dereference (claim C10) -/

/-- Claim C10: `validTransaction` is not total — on the transaction `tC10`,
whose single signature names `InputID` 2 while the only input spends output
1, the signature loop reads the missing map entry and dereferences the
resulting nil pointer, so `validTransaction`, `ValidTransaction` and
`AcceptTransaction` all panic instead of returning an error. -/
theorem validTransaction_panics_on_unmatched_signature :
    tC10.Signatures.map (fun sg => sg.InputID) = [2] ∧
    tC10.Inputs.map (fun inp => inp.OutputID) = [1] ∧
    validTransaction envT csC2 tC10 = .panicked ∧
    ValidTransaction envT csC2 tC10 = .panicked ∧
    (AcceptTransaction envT csC2 poolEmpty tC10).1 = .panicked := by
  refine ⟨by decide, by decide, by decide, by decide, by decide⟩

/-! ### The catch-up server (claim C8) -/

theorem findHighest_spec (s : NState) :
    ∀ (l : List Nat) (f : Bool) (h0 : Nat),
      findHighest s l f h0 =
        (f || l.any (fun bid => (HeightOfBlock s bid).isSome),
          l.foldl
            (fun acc bid =>
              match HeightOfBlock s bid with
              | some h => if acc < h then h else acc
              | none => acc) h0) := by
  intro l
  induction l with
  | nil => intro f h0; simp [findHighest]
  | cons bid rest ih =>
    intro f h0
    simp only [findHighest, List.any_cons, List.foldl_cons]
    cases hh : HeightOfBlock s bid with
    | none => simp only [hh]; rw [ih]; simp
    | some h => simp only [hh]; rw [ih]; simp

theorem collectBlocks_spec (s : NState) :
    ∀ (n : Nat) (h : Nat),
      (collectBlocks s h n).length ≤ n ∧
      (∀ j : Nat, j < (collectBlocks s h n).length →
        BlockAtHeight s (h + j) = (collectBlocks s h n)[j]?) ∧
      ((collectBlocks s h n).length < n →
        BlockAtHeight s (h + (collectBlocks s h n).length) = none) := by
  intro n
  induction n with
  | zero =>
    intro h
    refine ⟨by simp [collectBlocks], ?_, ?_⟩
    · intro j hj; simp [collectBlocks] at hj
    · intro hlt; simp [collectBlocks] at hlt
  | succ n ih =>
    intro h
    cases hb : BlockAtHeight s h with
    | none =>
      refine ⟨?_, ?_, ?_⟩
      · simp [collectBlocks, hb]
      · intro j hj; simp [collectBlocks, hb] at hj
      · intro hlt
        simp only [collectBlocks, hb, List.length_nil, Nat.add_zero]
    | some b =>
      have hcons : collectBlocks s h (n + 1) = b :: collectBlocks s (h + 1) n := by
        simp [collectBlocks, hb]
      obtain ⟨ih1, ih2, ih3⟩ := ih (h + 1)
      refine ⟨?_, ?_, ?_⟩
      · rw [hcons]; simpa using ih1
      · intro j hj
        rw [hcons] at hj ⊢
        match j with
        | 0 => simpa using hb
        | j + 1 =>
          simp only [List.length_cons, Nat.add_lt_add_iff_right] at hj
          have hstep := ih2 j hj
          have harith : h + (j + 1) = h + 1 + j := by omega
          rw [harith, hstep]
          simp
      · intro hlt
        rw [hcons] at hlt ⊢
        simp only [List.length_cons] at hlt ⊢
        have hlen : (collectBlocks s (h + 1) n).length < n := by omega
        have hstep := ih3 hlen
        have harith : h + ((collectBlocks s (h + 1) n).length + 1) =
            h + 1 + (collectBlocks s (h + 1) n).length := by omega
        rw [harith]
        exact hstep

/-- Claim C8 (amended): `SendBlocks` returns the "no matching block found"
error exactly when no id of `knownBlocks` is a block known to the peer's
block tree (`HeightOfBlock`, which answers for any fork — not only the
active chain, contrary to the claim); otherwise it returns up to
`MaxCatchUpBlocks` consecutive blocks of the active chain starting at the
highest matching height, and signals `moreBlocks` exactly when the active
chain has a block at `highest + MaxCatchUpBlocks`. -/
theorem sendBlocks_spec (s : NState) (known : List Nat) :
    ((SendBlocks s known).2 = .noMatchingBlock ↔
      ∀ bid ∈ known, HeightOfBlock s bid = none) ∧
    ((SendBlocks s known).2 = .noMatchingBlock → (SendBlocks s known).1 = []) ∧
    ((∃ bid ∈ known, (HeightOfBlock s bid).isSome) →
      (SendBlocks s known).1.length ≤ MaxCatchUpBlocks ∧
      (∀ j : Nat, j < (SendBlocks s known).1.length →
        BlockAtHeight s (maxKnownHeight s known + j) = (SendBlocks s known).1[j]?) ∧
      ((SendBlocks s known).1.length < MaxCatchUpBlocks →
        BlockAtHeight s (maxKnownHeight s known + (SendBlocks s known).1.length) = none) ∧
      ((SendBlocks s known).2 = .moreBlocks ↔
        (BlockAtHeight s (maxKnownHeight s known + MaxCatchUpBlocks)).isSome)) := by
  have hfh := findHighest_spec s known false 0
  cases hA : known.any (fun bid => (HeightOfBlock s bid).isSome) with
  | false =>
    have hnone : ∀ bid ∈ known, HeightOfBlock s bid = none := by
      intro bid hbid
      have h2 := (List.any_eq_false.mp hA) bid hbid
      cases hcase : HeightOfBlock s bid with
      | none => rfl
      | some v => rw [hcase] at h2; simp at h2
    have hsb : SendBlocks s known = ([], .noMatchingBlock) := by
      simp only [SendBlocks, hfh, hA]
      simp
    rw [hsb]
    refine ⟨⟨fun _ => hnone, fun _ => rfl⟩, fun _ => rfl, ?_⟩
    rintro ⟨bid, hbid, hsome⟩
    rw [hnone bid hbid] at hsome
    cases hsome
  | true =>
    have hsb : SendBlocks s known =
        (collectBlocks s (maxKnownHeight s known) MaxCatchUpBlocks,
          if (BlockAtHeight s (maxKnownHeight s known + MaxCatchUpBlocks)).isSome
          then .moreBlocks else .ok) := by
      simp only [SendBlocks, hfh, hA]
      simp [maxKnownHeight]
    rw [hsb]
    obtain ⟨hc1, hc2, hc3⟩ := collectBlocks_spec s MaxCatchUpBlocks (maxKnownHeight s known)
    refine ⟨?_, ?_, ?_⟩
    · constructor
      · intro hh
        by_cases hmore : (BlockAtHeight s (maxKnownHeight s known + MaxCatchUpBlocks)).isSome
        · rw [if_pos hmore] at hh; cases hh
        · rw [if_neg hmore] at hh; cases hh
      · intro hnone
        obtain ⟨bid, hbid, hsome⟩ := List.any_eq_true.mp hA
        rw [hnone bid hbid] at hsome
        cases hsome
    · intro hh
      by_cases hmore : (BlockAtHeight s (maxKnownHeight s known + MaxCatchUpBlocks)).isSome
      · rw [if_pos hmore] at hh; cases hh
      · rw [if_neg hmore] at hh; cases hh
    · intro _
      refine ⟨hc1, hc2, hc3, ?_⟩
      by_cases hmore : (BlockAtHeight s (maxKnownHeight s known + MaxCatchUpBlocks)).isSome
      · rw [if_pos hmore]; simp [hmore]
      · rw [if_neg hmore]; simp [hmore]

/-- Witness for claim C8's amended theorem: over the state `sC8` with
`knownBlocks = [1]` (the genesis id), the server finds the match, sends at
most 100 blocks, and signals `moreBlocks` exactly per the height check. -/
theorem sendBlocks_spec_witness :
    (SendBlocks sC8 [1]).1.length ≤ MaxCatchUpBlocks ∧
    ((SendBlocks sC8 [1]).2 = .moreBlocks ↔
      (BlockAtHeight sC8 (maxKnownHeight sC8 [1] + MaxCatchUpBlocks)).isSome) := by
  have h := (sendBlocks_spec sC8 [1]).2.2 ⟨1, by decide, by decide⟩
  exact ⟨h.1, h.2.2.2⟩

/-- Counterexample to claim C8 as stated: in the state `sC8` the active chain
is `{0 ↦ 1}` and no id of `knownC8` (`99` and zeros) lies on it — the claim
then demands the "no matching block found" error — yet `SendBlocks` succeeds
with an empty block list, because the side-chain block 99 at height 5 is in
`blockMap` and `HeightOfBlock` answers for any fork. -/
theorem sendBlocks_side_chain_counterexample :
    SendBlocks sC8 knownC8 = ([], SendRes.ok) ∧
    sC8.currentPath = (fun h => if h = 0 then some 1 else none) ∧
    knownC8.contains 1 = false ∧
    HeightOfBlock sC8 99 = some 5 := by
  refine ⟨by decide, rfl, by decide, by decide⟩

/-! ### The catch-up requester (claim C9) -/

theorem recentIDs_length (benv : BEnv) (s : NState) (tip : Nat) :
    ∀ (n i : Nat), (recentIDs benv s tip i n).length ≤ n := by
  intro n
  induction n with
  | zero => intro i; simp [recentIDs]
  | succ n ih =>
    intro i
    cases hb : BlockAtHeight s (sub64 tip i) with
    | none => simp [recentIDs, hb]
    | some b =>
      simp only [recentIDs, hb, List.length_cons]
      have := ih (i + 1)
      omega

theorem backtraceIDs_spec (benv : BEnv) (s : NState) (tip : Nat) :
    ∀ (n bt : Nat), bt * 2 ^ n ≤ 2 ^ 63 →
      (backtraceIDs benv s tip bt n).length ≤ n ∧
      (∀ j : Nat, j < (backtraceIDs benv s tip bt n).length →
        ∃ b, BlockAtHeight s (sub64 tip (bt * 2 ^ (j + 1))) = some b ∧
          (backtraceIDs benv s tip bt n)[j]? = some (benv.blockID b)) := by
  intro n
  induction n with
  | zero =>
    intro bt _
    refine ⟨by simp [backtraceIDs], ?_⟩
    intro j hj
    simp [backtraceIDs] at hj
  | succ n ih =>
    intro bt hbt
    have h2n : (2 : Nat) ≤ 2 ^ (n + 1) := by
      have h1 := Nat.one_le_two_pow (n := n)
      have h2 : 2 ^ (n + 1) = 2 ^ n * 2 := Nat.pow_succ 2 n
      omega
    have hb2 : bt * 2 ≤ 2 ^ 63 := by
      calc bt * 2 ≤ bt * 2 ^ (n + 1) := Nat.mul_le_mul_left bt h2n
        _ ≤ 2 ^ 63 := hbt
    have hmod : bt * 2 % 2 ^ 64 = bt * 2 := by
      apply Nat.mod_eq_of_lt
      calc bt * 2 ≤ 2 ^ 63 := hb2
        _ < 2 ^ 64 := by norm_num
    have hbt2 : (bt * 2) * 2 ^ n ≤ 2 ^ 63 := by
      have hsw : bt * 2 * 2 ^ n = bt * 2 ^ (n + 1) := by ring
      rw [hsw]; exact hbt
    obtain ⟨ihl, ihe⟩ := ih (bt * 2) hbt2
    cases hb : BlockAtHeight s (sub64 tip (bt * 2)) with
    | none =>
      have hred : backtraceIDs benv s tip bt (n + 1) = [] := by
        simp only [backtraceIDs]
        rw [hmod, hb]
      refine ⟨?_, ?_⟩
      · simp [hred]
      · intro j hj
        simp [hred] at hj
    | some b =>
      have hcons : backtraceIDs benv s tip bt (n + 1) =
          benv.blockID b :: backtraceIDs benv s tip (bt * 2) n := by
        simp only [backtraceIDs]
        rw [hmod, hb]
      refine ⟨?_, ?_⟩
      · rw [hcons]; simpa using ihl
      · intro j hj
        rw [hcons] at hj ⊢
        match j with
        | 0 =>
          refine ⟨b, ?_, by simp⟩
          have : bt * 2 ^ (0 + 1) = bt * 2 := by ring
          rw [this]
          exact hb
        | j + 1 =>
          simp only [List.length_cons, Nat.add_lt_add_iff_right] at hj
          obtain ⟨b2, hb2e, hb2g⟩ := ihe j hj
          refine ⟨b2, ?_, by simpa using hb2g⟩
          have : bt * 2 ^ (j + 1 + 1) = bt * 2 * 2 ^ (j + 1) := by ring
          rw [this]
          exact hb2e

/-- Claim C9 (amended): `CatchUp` builds `knownBlocks` as the ids of the 12
most recent blocks, then — contrary to the claim's `k = 1…18` — the block id
at height `tip − 12·2^k` (uint64 subtraction) for each `k = 1…19`, stopping
early at the first height off the chain, and always finally the genesis id:
at most 32 ids, with the genesis id always among them. -/
theorem catchUpKnownBlocks_spec (benv : BEnv) (s : NState) :
    (catchUpKnownBlocks benv s).length ≤ 32 ∧
    benv.blockID ((BlockAtHeight s 0).getD zeroBlock) ∈ catchUpKnownBlocks benv s ∧
    (recentIDs benv s (stateHeight s) 0 12).length ≤ 12 ∧
    (backtraceIDs benv s (stateHeight s) 12 19).length ≤ 19 ∧
    (∀ j : Nat, j < (backtraceIDs benv s (stateHeight s) 12 19).length →
      ∃ b, BlockAtHeight s (sub64 (stateHeight s) (12 * 2 ^ (j + 1))) = some b ∧
        (backtraceIDs benv s (stateHeight s) 12 19)[j]? = some (benv.blockID b)) := by
  have hbound : (12 : Nat) * 2 ^ 19 ≤ 2 ^ 63 := by norm_num
  obtain ⟨hbl, hbe⟩ := backtraceIDs_spec benv s (stateHeight s) 19 12 hbound
  have hrl := recentIDs_length benv s (stateHeight s) 12 0
  refine ⟨?_, ?_, hrl, hbl, hbe⟩
  · simp only [catchUpKnownBlocks, List.length_append, List.length_cons,
      List.length_nil]
    omega
  · simp [catchUpKnownBlocks]

/-- Witness for claim C9's amended theorem over the long-chain state `sC9`
(tip height `12·2^19`): the bounds hold and the backtrace loop's first entry
is the block at height `tip − 24`. -/
theorem catchUpKnownBlocks_spec_witness :
    (catchUpKnownBlocks benvT sC9).length ≤ 32 ∧
    (∃ b, BlockAtHeight sC9 (sub64 (stateHeight sC9) (12 * 2 ^ (0 + 1))) = some b ∧
      (backtraceIDs benvT sC9 (stateHeight sC9) 12 19)[0]? = some (benvT.blockID b)) := by
  have h := catchUpKnownBlocks_spec benvT sC9
  exact ⟨h.1, h.2.2.2.2 0 (by decide)⟩

/-- Counterexample to claim C9 as stated: on the chain of `sC9`, whose tip
height is exactly `12·2^19`, the backtrace loop produces 19 ids (one for each
`k = 1…19`, the last at height 0) and `CatchUp` builds 32 known-block ids in
total, contradicting the claim's `k = 1…18` and "at most 31 IDs". -/
theorem catchUpKnownBlocks_32_ids :
    stateHeight sC9 = 12 * 2 ^ 19 ∧
    (backtraceIDs benvT sC9 (stateHeight sC9) 12 19).length = 19 ∧
    (catchUpKnownBlocks benvT sC9).length = 32 := by
  refine ⟨by decide, by decide, by decide⟩

/-- Claim C3 (amended): under the validation precondition, applying a
transaction and then inverting it is an exact no-op on the consensus state —
`invertTransaction` returns precisely the starting state.  The inversion
diff sequence, however, is not the apply-time sequence "replayed in
reverse": the loops of `invertTransaction` walk each group in the same
forward order as `applyTransaction` did, so the diffs come out with the
groups reversed (storage proofs, then outputs, then inputs) but each group
in forward order, every `New` flag flipped. -/
theorem applyInvert_roundTrip (env : Env) (s : CState) (t : Transaction)
    (h : applyInvertPre env s t) :
    applyTransaction env s t = some (appliedState env s t,
      inputDiffsOf s t ++ outputDiffsOf env t ++ proofDiffsOf env s t) ∧
    invertTransaction env (appliedState env s t) t = some (s,
      (proofDiffsOf env s t).map flipDiff ++ (outputDiffsOf env t).map flipDiff ++
        (inputDiffsOf s t).map flipDiff) :=
  ⟨applyTransaction_spec env s t h, invertTransaction_spec env s t h⟩

/-- Witness for claim C3's amended theorem: the two-input transaction `tC3`
in state `csC3` satisfies the precondition, and apply followed by invert
returns the exact starting state with the group-reversed flipped diffs. -/
theorem applyInvert_roundTrip_witness :
    applyInvertPre envT csC3 tC3 ∧
    applyTransaction envT csC3 tC3 = some (appliedState envT csC3 tC3,
      inputDiffsOf csC3 tC3 ++ outputDiffsOf envT tC3 ++ proofDiffsOf envT csC3 tC3) ∧
    invertTransaction envT (appliedState envT csC3 tC3) tC3 = some (csC3,
      (proofDiffsOf envT csC3 tC3).map flipDiff ++
        (outputDiffsOf envT tC3).map flipDiff ++
        (inputDiffsOf csC3 tC3).map flipDiff) := by
  have hpre : applyInvertPre envT csC3 tC3 := by
    unfold applyInvertPre
    decide
  exact ⟨hpre, (applyInvert_roundTrip envT csC3 tC3 hpre).1,
    (applyInvert_roundTrip envT csC3 tC3 hpre).2⟩

/-- Counterexample to claim C3 as stated: `tC3` is valid in `csC3`, its
apply-time diffs are `dsC3apply`, yet inverting from the applied state
`csC3post` does not yield `dsC3apply` replayed in reverse with `New`
flipped — the two input diffs come back in forward, not reverse, order. -/
theorem applyInvert_not_reverse_replay :
    validTransaction envT csC3 tC3 = TxResult.ok ∧
    (applyTransaction envT csC3 tC3).map Prod.snd = some dsC3apply ∧
    (invertTransaction envT csC3post tC3).map Prod.snd ≠
      some (dsC3apply.reverse.map flipDiff) := by
  refine ⟨by decide, by decide, by decide⟩

/-- Claim C4: disjointness of the two output maps is an invariant — if no
id is a key of both `unspentOutputs` and `spentOutputs` before a validated
transaction is applied, none is afterwards, and inverting the application
restores a state that is again disjoint. -/
theorem applyInvert_preserves_disjoint (env : Env) (s : CState) (t : Transaction)
    (hd : disjointMaps s) (hpre : applyInvertPre env s t) :
    (∀ s1 ds, applyTransaction env s t = some (s1, ds) → disjointMaps s1) ∧
    (∀ s1 ds s2 ds2, applyTransaction env s t = some (s1, ds) →
      invertTransaction env s1 t = some (s2, ds2) → disjointMaps s2) := by
  have happ := applyTransaction_spec env s t hpre
  have hinv := invertTransaction_spec env s t hpre
  have hdisj : disjointMaps (appliedState env s t) := by
    obtain ⟨hIp, hInd, hOnd, hOf, hPnd, hPf, hQnd, hQw, hCnd, hCf⟩ := hpre
    intro k
    by_cases hkI : k ∈ inputIDs t
    · left
      have hnP : k ∉ (spPairsOf env s t).map Prod.fst := by
        intro hmem
        have hmem2 : k ∈ proofOutputIDs env t := by
          simpa [spPairsOf, proofOutputIDs, List.map_map, Function.comp] using hmem
        exact (hPf k hmem2).2.2.1 hkI
      have hnO : k ∉ (outputPairs env t).map Prod.fst := by
        intro hmem
        exact (hOf k hmem).2.2 hkI
      simp [appliedState, lookup_none_of_not_mem _ _ hnP,
        lookup_none_of_not_mem _ _ hnO, hkI]
    · cases hlkP : (spPairsOf env s t).lookup k with
      | some v =>
        right
        have hmem : k ∈ proofOutputIDs env t := by
          have := mem_keys_of_lookup_some _ _ _ hlkP
          simpa [spPairsOf, proofOutputIDs, List.map_map, Function.comp] using this
        simp [appliedState, hkI, (hPf k hmem).2.1]
      | none =>
        cases hlkO : (outputPairs env t).lookup k with
        | some v =>
          right
          have hmem : k ∈ newOutputIDs env t := mem_keys_of_lookup_some _ _ _ hlkO
          simp [appliedState, hkI, (hOf k hmem).2.1]
        | none =>
          rcases hd k with h | h
          · left
            simp [appliedState, hlkP, hlkO, hkI, h]
          · right
            simp [appliedState, hkI, h]
  refine ⟨?_, ?_⟩
  · intro s1 ds h1
    rw [happ] at h1
    simp only [Option.some.injEq, Prod.mk.injEq] at h1
    obtain ⟨h1a, h1b⟩ := h1
    exact h1a ▸ hdisj
  · intro s1 ds s2 ds2 h1 h2
    rw [happ] at h1
    simp only [Option.some.injEq, Prod.mk.injEq] at h1
    obtain ⟨h1a, h1b⟩ := h1
    rw [← h1a, hinv] at h2
    simp only [Option.some.injEq, Prod.mk.injEq] at h2
    obtain ⟨h2a, h2b⟩ := h2
    exact h2a ▸ hd

/-- Witness for claim C4: in state `csC3`, which is disjoint, the validated
transaction `tC3` applies to a disjoint state, and inverting that
application yields a disjoint state again. -/
theorem applyInvert_preserves_disjoint_witness :
    disjointMaps csC3 ∧ applyInvertPre envT csC3 tC3 ∧
    (∀ s1 ds, applyTransaction envT csC3 tC3 = some (s1, ds) → disjointMaps s1) ∧
    (∀ s1 ds s2 ds2, applyTransaction envT csC3 tC3 = some (s1, ds) →
      invertTransaction envT s1 tC3 = some (s2, ds2) → disjointMaps s2) := by
  have hd : disjointMaps csC3 := fun _ => Or.inr rfl
  have hpre : applyInvertPre envT csC3 tC3 := by
    unfold applyInvertPre
    decide
  exact ⟨hd, hpre, (applyInvert_preserves_disjoint envT csC3 tC3 hd hpre).1,
    (applyInvert_preserves_disjoint envT csC3 tC3 hd hpre).2⟩

end Sia
